import Mathlib

/-!
Verification development for the object-types resolution stage of a
declarative schema compiler (metadata-resolve, stage object_types).

The definitions below are a shallow embedding of
src/v3/crates/metadata-resolve/src/stages/object_types/mod.rs.
Rust BTreeMap / IndexMap values are embedded as association lists with
explicit insert / remove / lookup operations that return the old binding the
way the Rust map APIs do; mutation of the caller-supplied accumulator maps is
embedded by threading an explicit accumulator record through
resolve_object_type, returned on both the success and the error path (Rust
mutations through an exclusive reference persist when the function returns
early with an error).
-/

namespace ObjectTypes

/-! ### Association-list maps (embedding of BTreeMap / IndexMap) -/

/-- First-match lookup in an association list (BTreeMap::get / IndexMap::get). -/
def lookupKey {κ ν : Type} [DecidableEq κ] : List (κ × ν) → κ → Option ν
  | [], _ => none
  | (k', v') :: rest, k => if k' = k then some v' else lookupKey rest k

/-- Key-membership test (BTreeMap::contains_key / IndexMap::contains_key). -/
def containsKey {κ ν : Type} [DecidableEq κ] (l : List (κ × ν)) (k : κ) : Bool :=
  (lookupKey l k).isSome

/-- Map insert: replaces the binding in place when the key exists and returns
the old value, appends otherwise (IndexMap::insert / BTreeMap::insert). -/
def insertLookup {κ ν : Type} [DecidableEq κ] : List (κ × ν) → κ → ν → Option ν × List (κ × ν)
  | [], k, v => (none, [(k, v)])
  | (k', v') :: rest, k, v =>
    if k' = k then (some v', (k, v) :: rest)
    else
      let r := insertLookup rest k v
      (r.1, (k', v') :: r.2)

/-- Map remove: drops the binding for the key, returning the removed value
(BTreeMap::remove). -/
def removeLookup {κ ν : Type} [DecidableEq κ] : List (κ × ν) → κ → Option ν × List (κ × ν)
  | [], _ => (none, [])
  | (k', v') :: rest, k =>
    if k' = k then (some v', rest)
    else
      let r := removeLookup rest k
      (r.1, (k', v') :: r.2)

/-- The key sequence of an association list, in stored order. -/
def keysOf {κ ν : Type} : List (κ × ν) → List κ :=
  List.map Prod.fst

/-- Sorting a list of strings (Vec::sort on String keys). -/
def sortStrings (l : List String) : List String :=
  l.insertionSort (· ≤ ·)

/-! ### Names and qualified names -/

/-- Qualified: a namespace (subgraph) paired with a local name
(crate::types::subgraph::Qualified, instantiated at string-like names). -/
structure Qualified where
  subgraph : String
  name : String
deriving DecidableEq, Repr

/-- Modelled from the spec: mk_qualified_type_reference (not under src/) —
a declared type reference interpreted relative to the enclosing namespace. -/
structure QualifiedTypeReference where
  subgraph : String
  name : String
deriving DecidableEq, Repr

/-- Modelled from the spec: mk_qualified_type_reference qualifies a local
type name with the enclosing namespace. -/
def mk_qualified_type_reference (field_type : String) (subgraph : String) :
    QualifiedTypeReference :=
  ⟨subgraph, field_type⟩

/-! ### Declarative input (open_dds definitions as consumed by mod.rs) -/

/-- A declared field (open_dds::types::FieldDefinition). -/
structure FieldDefinitionInput where
  name : String
  field_type : String
  description : Option String := none
  deprecated : Option String := none
deriving DecidableEq, Repr

/-- A declared field-to-column mapping (open_dds::types::FieldMapping):
a tagged variant with a single Column case today. -/
inductive FieldMappingInput where
  | Column (name : String)
deriving DecidableEq, Repr

/-- A declared "map this type onto a data connector object type" directive
(open_dds::types::DataConnectorTypeMapping). -/
structure DataConnectorTypeMapping where
  data_connector_name : String
  data_connector_object_type : String
  field_mapping : List (String × FieldMappingInput) := []
deriving DecidableEq, Repr

/-- A declared apollo federation key (a list of field names). -/
structure ApolloFederationObjectKey where
  fields : List String
deriving DecidableEq, Repr

/-- A declared apollo federation configuration: a list of key groups. -/
structure ApolloFederationObjectConfig where
  keys : List ApolloFederationObjectKey
deriving DecidableEq, Repr

/-- The declared GraphQL exposure block of an object type. -/
structure ObjectTypeGraphQLConfig where
  type_name : Option String := none
  input_type_name : Option String := none
  apollo_federation : Option ApolloFederationObjectConfig := none
deriving DecidableEq, Repr

/-- A declared object type (open_dds::types::ObjectTypeV1). -/
structure ObjectTypeV1 where
  name : String
  fields : List FieldDefinitionInput
  global_id_fields : Option (List String) := none
  graphql : Option ObjectTypeGraphQLConfig := none
  description : Option String := none
  data_connector_type_mapping : List DataConnectorTypeMapping := []
deriving DecidableEq, Repr

/-- An object type declaration together with its enclosing subgraph
(open_dds::accessor::QualifiedObject). -/
structure QualifiedObject where
  subgraph : String
  object : ObjectTypeV1
deriving DecidableEq, Repr

/-- The metadata accessor: the ordered sequence of declared object types. -/
structure MetadataAccessor where
  object_types : List QualifiedObject
deriving DecidableEq, Repr

/-! ### The source-schema lookup (data connectors, ndc_models) -/

/-- A native field of a data connector object type, carrying its native type
descriptor (ndc_models::ObjectField, the type descriptor kept opaque). -/
structure NdcObjectField where
  type : String
deriving DecidableEq, Repr

/-- A native object type of a data connector (ndc_models::ObjectType). -/
structure NdcObjectType where
  fields : List (String × NdcObjectField)
deriving DecidableEq, Repr

/-- The schema exposed by one data connector. -/
structure DataConnectorSchema where
  object_types : List (String × NdcObjectType)
deriving DecidableEq, Repr

/-- Per-connector context; the Rust code reads context.inner.schema, the
intermediate inner wrapper is flattened away here. -/
structure DataConnectorContext where
  schema : DataConnectorSchema
deriving DecidableEq, Repr

/-- The read-only registry of configured data connectors, keyed by qualified
connector name (data_connectors::DataConnectors). -/
structure DataConnectors where
  connectors : List (Qualified × DataConnectorContext)
deriving DecidableEq, Repr

/-! ### Errors -/

/-- Type-mapping validation errors
(crate::types::error::TypeMappingValidationError, the variants used here). -/
inductive TypeMappingValidationError where
  | UnknownDataConnector (data_connector : Qualified) (type_name : Qualified)
  | UnknownNdcType (type_name : Qualified) (unknown_ndc_type : String)
  | UnknownTargetColumn (field_name : String) (column_name : String)
  | DuplicateFieldMapping (type_name : Qualified) (field_name : String)
  | UnknownSourceFields (type_name : Qualified) (field_names : List String)
deriving DecidableEq, Repr

/-- Resolution errors (crate::types::error::Error, the variants used here).
GraphqlTypeNameConflict and DuplicateDataConnectorTypeMapping are modelled
from the spec (duplicate-graphql-type-name, duplicate-type-mapping): they are
raised by helpers (store_new_graphql_type, the type-mappings table insert)
whose code is not under src/. -/
inductive Error where
  | DuplicateTypeDefinition (name : Qualified)
  | DuplicateFieldDefinition (type_name : Qualified) (field_name : String)
  | IdFieldConflictingGlobalId (type_name : Qualified)
  | UnknownFieldInGlobalId (field_name : String) (type_name : Qualified)
  | UnknownFieldInApolloFederationKey (field_name : String) (object_type : Qualified)
  | EmptyFieldsInApolloFederationConfigForObject (object_type : Qualified)
  | EmptyKeysInApolloFederationConfigForObject (object_type : Qualified)
  | GraphqlTypeNameConflict (name : String)
  | DataConnectorTypeMappingValidationError (type_name : Qualified)
      (error : TypeMappingValidationError)
  | DuplicateDataConnectorTypeMapping (data_connector : Qualified) (ndc_type : String)
deriving DecidableEq, Repr

/-! ### Resolved output types (types.rs, shapes fixed by their use in mod.rs) -/

/-- A resolved field definition. -/
structure FieldDefinition where
  field_type : QualifiedTypeReference
  description : Option String
  deprecated : Option String
deriving DecidableEq, Repr

/-- A resolved field-to-column binding: the column name and the column's
native type copied from the source schema. -/
structure FieldMapping where
  column : String
  column_type : String
deriving DecidableEq, Repr

/-- A resolved type mapping for one (object type, source) pair. -/
inductive TypeMapping where
  | Object (ndc_object_type_name : String) (field_mappings : List (String × FieldMapping))
deriving DecidableEq, Repr

/-- A resolved apollo federation key; the Rust field is a NonEmpty list, the
non-emptiness check is explicit in the resolution code below. -/
structure ResolvedApolloFederationObjectKey where
  fields : List String
deriving DecidableEq, Repr

/-- A resolved apollo federation configuration. -/
structure ResolvedObjectApolloFederationConfig where
  keys : List ResolvedApolloFederationObjectKey
deriving DecidableEq, Repr

/-- The canonical resolved representation of one object type. -/
structure ObjectTypeRepresentation where
  fields : List (String × FieldDefinition)
  global_id_fields : List String
  graphql_output_type_name : Option String
  graphql_input_type_name : Option String
  description : Option String
  apollo_federation_config : Option ResolvedObjectApolloFederationConfig
deriving DecidableEq, Repr

/-- The per-type table of type mappings, keyed by (qualified connector name,
native object type name). -/
abbrev DataConnectorTypeMappingsForObject :=
  List ((Qualified × String) × TypeMapping)

/-- Modelled from the spec: DataConnectorTypeMappingsForObject::insert
(types.rs, not under src/) fails with duplicate-type-mapping when the same
(source, native type) key is inserted twice for one object type. -/
def dctmInsert (t : DataConnectorTypeMappingsForObject) (data_connector : Qualified)
    (ndc_type : String) (tm : TypeMapping) :
    Except Error DataConnectorTypeMappingsForObject :=
  match lookupKey t (data_connector, ndc_type) with
  | some _ => .error (.DuplicateDataConnectorTypeMapping data_connector ndc_type)
  | none => .ok (t ++ [((data_connector, ndc_type), tm)])

/-- One entry of the aggregate output: a resolved object type together with
its table of type mappings. -/
structure ObjectTypeWithTypeMappings where
  object_type : ObjectTypeRepresentation
  type_mappings : DataConnectorTypeMappingsForObject
deriving DecidableEq, Repr

/-- The three caller-supplied accumulators mutated by resolve_object_type:
the claimed GraphQL names, the identity-enabled index and the
federation-enabled index. -/
structure Accs where
  graphql_types : List String
  global_id_enabled_types : List (Qualified × List Qualified)
  apollo_federation_entity_enabled_types : List (Qualified × Option Qualified)
deriving DecidableEq, Repr

/-- The aggregate output of the top-level resolve
(DataConnectorTypeMappingsOutput). -/
structure DataConnectorTypeMappingsOutput where
  object_types : List (Qualified × ObjectTypeWithTypeMappings)
  graphql_types : List String
  global_id_enabled_types : List (Qualified × List Qualified)
  apollo_federation_entity_enabled_types : List (Qualified × Option Qualified)
deriving DecidableEq, Repr

/-! ### External helper collaborators (not under src/) -/

/-- Modelled from the spec: the external Name Sanitizer (mk_name), a black
box create-valid-identifier operation; modelled as accepting every raw name
unchanged. -/
def mk_name (raw : String) : Except Error String :=
  .ok raw

/-- Modelled from the spec: store_new_graphql_type registers a derived
GraphQL name (skipping an absent one) into the global claimed-name set and
fails with duplicate-graphql-type-name when the name is already claimed. -/
def store_new_graphql_type (existing : List String) (name : Option String) :
    Except Error (List String) :=
  match name with
  | none => .ok existing
  | some n => if n ∈ existing then .error (.GraphqlTypeNameConflict n) else .ok (existing ++ [n])

/-- Option.transpose over the Except used by the mk_name call sites. -/
def optTranspose {α : Type} : Option (Except Error α) → Except Error (Option α)
  | none => .ok none
  | some (.error e) => .error e
  | some (.ok a) => .ok (some a)

/-! ### Field resolution -/

/-- resolve_field: qualifies the declared field type and carries the
description / deprecation metadata through. -/
def resolve_field (field : FieldDefinitionInput) (subgraph : String) :
    Except Error FieldDefinition :=
  .ok { field_type := mk_qualified_type_reference field.field_type subgraph
        description := field.description
        deprecated := field.deprecated }

/-- The field loop of resolve_object_type: inserts each resolved field into
the ordered field map, failing on a duplicate field name. -/
def resolveFieldsLoop (subgraph : String) (qtn : Qualified) :
    List FieldDefinitionInput → List (String × FieldDefinition) →
    Except Error (List (String × FieldDefinition))
  | [], acc => .ok acc
  | field :: rest, acc =>
    match resolve_field field subgraph with
    | .error e => .error e
    | .ok fd =>
      match insertLookup acc field.name fd with
      | (some _, _) => .error (.DuplicateFieldDefinition qtn field.name)
      | (none, acc') => resolveFieldsLoop subgraph qtn rest acc'

/-- The identity-field loop of resolve_object_type: each declared identity
field must be a key of the resolved field map; fields are appended in
declaration order. -/
def checkGlobalIdFieldsLoop (qtn : Qualified) (resolved_fields : List (String × FieldDefinition)) :
    List String → List String → Except Error (List String)
  | [], acc => .ok acc
  | g :: rest, acc =>
    if containsKey resolved_fields g then
      checkGlobalIdFieldsLoop qtn resolved_fields rest (acc ++ [g])
    else .error (.UnknownFieldInGlobalId g qtn)

/-- The per-key field loop of the federation stage: each named key field must
be a key of the resolved field map. -/
def resolveFederationKeyFields (qtn : Qualified)
    (resolved_fields : List (String × FieldDefinition)) :
    List String → List String → Except Error (List String)
  | [], acc => .ok acc
  | f :: rest, acc =>
    if containsKey resolved_fields f then
      resolveFederationKeyFields qtn resolved_fields rest (acc ++ [f])
    else .error (.UnknownFieldInApolloFederationKey f qtn)

/-- The key-group loop of the federation stage: resolves each key group and
rejects an empty key group (NonEmpty::from_vec of the key fields). -/
def resolveFederationKeysLoop (qtn : Qualified)
    (resolved_fields : List (String × FieldDefinition)) :
    List ApolloFederationObjectKey → List ResolvedApolloFederationObjectKey →
    Except Error (List ResolvedApolloFederationObjectKey)
  | [], acc => .ok acc
  | key :: rest, acc =>
    match resolveFederationKeyFields qtn resolved_fields key.fields [] with
    | .error e => .error e
    | .ok key_fields =>
      match key_fields with
      | [] => .error (.EmptyFieldsInApolloFederationConfigForObject qtn)
      | kf :: kfs => resolveFederationKeysLoop qtn resolved_fields rest (acc ++ [⟨kf :: kfs⟩])

/-- The identity-field block of resolve_object_type (the match on
global_id_fields): on a non-empty group, checks the id conflict, registers
the type in the identity-enabled index, then validates the listed fields. -/
def resolveGlobalIdStage (global_id_fields : Option (List String))
    (resolved_fields : List (String × FieldDefinition)) (accs : Accs) (qtn : Qualified) :
    Except (Error × Accs) (List String × Accs) :=
  match global_id_fields with
  | none => .ok ([], accs)
  | some gif =>
    if gif.isEmpty then
      match checkGlobalIdFieldsLoop qtn resolved_fields gif [] with
      | .error e => .error (e, accs)
      | .ok rgif => .ok (rgif, accs)
    else
      if containsKey resolved_fields "id" then
        .error (.IdFieldConflictingGlobalId qtn, accs)
      else
        let accs1 : Accs :=
          { accs with global_id_enabled_types :=
              (insertLookup accs.global_id_enabled_types qtn []).2 }
        match checkGlobalIdFieldsLoop qtn resolved_fields gif [] with
        | .error e => .error (e, accs1)
        | .ok rgif => .ok (rgif, accs1)

/-- The GraphQL block of resolve_object_type: derives the exposed names via
the sanitizer and resolves the federation configuration, registering the
type in the federation-enabled index once all key fields validate. -/
def resolveGraphqlStage (graphql : Option ObjectTypeGraphQLConfig)
    (resolved_fields : List (String × FieldDefinition)) (accs1 : Accs) (qtn : Qualified) :
    Except (Error × Accs)
      ((Option String × Option String × Option ResolvedObjectApolloFederationConfig) × Accs) :=
  match graphql with
  | none => .ok ((none, none, none), accs1)
  | some graphql =>
    match optTranspose (graphql.type_name.map mk_name) with
    | .error e => .error (e, accs1)
    | .ok graphql_type_name =>
      match optTranspose (graphql.input_type_name.map mk_name) with
      | .error e => .error (e, accs1)
      | .ok graphql_input_type_name =>
        match graphql.apollo_federation with
        | none => .ok ((graphql_type_name, graphql_input_type_name, none), accs1)
        | some apollo_federation =>
          match resolveFederationKeysLoop qtn resolved_fields apollo_federation.keys [] with
          | .error e => .error (e, accs1)
          | .ok resolved_keys =>
            let accs2 : Accs :=
              { accs1 with apollo_federation_entity_enabled_types :=
                  (insertLookup accs1.apollo_federation_entity_enabled_types qtn none).2 }
            match resolved_keys with
            | [] => .error (.EmptyKeysInApolloFederationConfigForObject qtn, accs2)
            | rk :: rks =>
              .ok ((graphql_type_name, graphql_input_type_name, some ⟨rk :: rks⟩), accs2)

/-- resolve_object_type. The accumulator record is threaded explicitly and is
returned on the error path as well, mirroring the Rust mutations through the
caller's exclusive references which persist across an early error return. -/
def resolve_object_type (d : ObjectTypeV1) (accs : Accs) (qtn : Qualified) (subgraph : String) :
    Except (Error × Accs) (ObjectTypeRepresentation × Accs) :=
  match resolveFieldsLoop subgraph qtn d.fields [] with
  | .error e => .error (e, accs)
  | .ok resolved_fields =>
    match resolveGlobalIdStage d.global_id_fields resolved_fields accs qtn with
    | .error ea => .error ea
    | .ok (resolved_global_id_fields, accs1) =>
      match resolveGraphqlStage d.graphql resolved_fields accs1 qtn with
      | .error ea => .error ea
      | .ok ((graphql_type_name, graphql_input_type_name, apollo_federation_config), accs2) =>
        match store_new_graphql_type accs2.graphql_types graphql_type_name with
        | .error e => .error (e, accs2)
        | .ok gset1 =>
          let accs3 : Accs := { accs2 with graphql_types := gset1 }
          match store_new_graphql_type accs3.graphql_types graphql_input_type_name with
          | .error e => .error (e, accs3)
          | .ok gset2 =>
            let accs4 : Accs := { accs3 with graphql_types := gset2 }
            .ok ({ fields := resolved_fields
                   global_id_fields := resolved_global_id_fields
                   graphql_output_type_name := graphql_type_name
                   graphql_input_type_name := graphql_input_type_name
                   description := d.description
                   apollo_federation_config := apollo_federation_config }, accs4)

/-! ### Field-mapping resolution -/

/-- get_column: looks a column name up in the native object type's fields. -/
def get_column (ndc_type : NdcObjectType) (field_name : String) (column : String) :
    Except TypeMappingValidationError NdcObjectField :=
  match lookupKey ndc_type.fields column with
  | some f => .ok f
  | none => .error (.UnknownTargetColumn field_name column)

/-- Building the working map of declared column overrides
(iter().collect::<BTreeMap<_, _>>()): a left fold of map inserts, a later
binding for the same key replacing an earlier one. -/
def collectOverrides (l : List (String × FieldMappingInput)) :
    List (String × FieldMappingInput) :=
  l.foldl (fun m kv => (insertLookup m kv.1 kv.2).2) []

/-- The field loop of resolve_data_connector_type_mapping: walks the object
type's field names in stored order, consuming a declared override when one
exists and defaulting the column name to the field name otherwise, validating
the column against the native type. Returns the left-over override map
together with the resolved field mappings. The Rust resolved map is a
BTreeMap, which iterates in sorted key order; this association list keeps
insertion order instead, so only key-set facts (membership, uniqueness,
lookups) are read off the resolved map, never its key order. -/
def resolveFieldMappingsLoop (qtn : Qualified) (ndc_object_type : NdcObjectType) :
    List String → List (String × FieldMappingInput) → List (String × FieldMapping) →
    Except TypeMappingValidationError
      (List (String × FieldMappingInput) × List (String × FieldMapping))
  | [], unconsumed, resolved => .ok (unconsumed, resolved)
  | field_name :: rest, unconsumed, resolved =>
    let r := removeLookup unconsumed field_name
    let column : String :=
      match r.1 with
      | some (.Column c) => c
      | none => field_name
    match get_column ndc_object_type field_name column with
    | .error e => .error e
    | .ok source_column =>
      match insertLookup resolved field_name
          { column := column, column_type := source_column.type } with
      | (some _, _) => .error (.DuplicateFieldMapping qtn field_name)
      | (none, resolved') => resolveFieldMappingsLoop qtn ndc_object_type rest r.2 resolved'

/-- resolve_data_connector_type_mapping. -/
def resolve_data_connector_type_mapping (data_connector_type_mapping : DataConnectorTypeMapping)
    (qualified_type_name : Qualified) (subgraph : String)
    (type_representation : ObjectTypeRepresentation) (data_connectors : DataConnectors) :
    Except TypeMappingValidationError TypeMapping :=
  let qualified_data_connector_name : Qualified :=
    ⟨subgraph, data_connector_type_mapping.data_connector_name⟩
  match lookupKey data_connectors.connectors qualified_data_connector_name with
  | none =>
    .error (.UnknownDataConnector qualified_data_connector_name qualified_type_name)
  | some data_connector_context =>
    match lookupKey data_connector_context.schema.object_types
        data_connector_type_mapping.data_connector_object_type with
    | none =>
      .error (.UnknownNdcType qualified_type_name
        data_connector_type_mapping.data_connector_object_type)
    | some ndc_object_type =>
      match resolveFieldMappingsLoop qualified_type_name ndc_object_type
          (keysOf type_representation.fields)
          (collectOverrides data_connector_type_mapping.field_mapping) [] with
      | .error e => .error e
      | .ok (unconsumed_field_mappings, resolved_field_mappings) =>
        if unconsumed_field_mappings.isEmpty then
          .ok (.Object data_connector_type_mapping.data_connector_object_type
            resolved_field_mappings)
        else
          .error (.UnknownSourceFields qualified_type_name
            (sortStrings (keysOf unconsumed_field_mappings)))

/-! ### The top-level driver -/

/-- The running state of the top-level resolve: the object types built so far
and the three accumulators. -/
structure ResolveState where
  object_types : List (Qualified × ObjectTypeWithTypeMappings)
  accs : Accs
deriving DecidableEq, Repr

/-- The per-directive loop of the top-level resolve: resolves each declared
source mapping and inserts it into the per-type table. -/
def resolveMappingsLoop (data_connectors : DataConnectors) (subgraph : String)
    (qtn : Qualified) (repr : ObjectTypeRepresentation) :
    List DataConnectorTypeMapping → DataConnectorTypeMappingsForObject →
    Except Error DataConnectorTypeMappingsForObject
  | [], tms => .ok tms
  | dtm :: rest, tms =>
    match resolve_data_connector_type_mapping dtm qtn subgraph repr data_connectors with
    | .error e => .error (.DataConnectorTypeMappingValidationError qtn e)
    | .ok tm =>
      match dctmInsert tms ⟨subgraph, dtm.data_connector_name⟩
          dtm.data_connector_object_type tm with
      | .error e => .error e
      | .ok tms' => resolveMappingsLoop data_connectors subgraph qtn repr rest tms'

/-- One iteration of the top-level loop: resolve the object type, resolve its
declared source mappings, then insert the finished pair into the aggregate,
failing with duplicate-type-definition when the qualified name repeats. -/
def resolveStep (data_connectors : DataConnectors) (st : ResolveState)
    (qo : QualifiedObject) : Except Error ResolveState :=
  let qtn : Qualified := ⟨qo.subgraph, qo.object.name⟩
  match resolve_object_type qo.object st.accs qtn qo.subgraph with
  | .error (e, _) => .error e
  | .ok (resolved_object_type, accs') =>
    match resolveMappingsLoop data_connectors qo.subgraph qtn resolved_object_type
        qo.object.data_connector_type_mapping [] with
    | .error e => .error e
    | .ok type_mappings =>
      match insertLookup st.object_types qtn
          ⟨resolved_object_type, type_mappings⟩ with
      | (some _, _) => .error (.DuplicateTypeDefinition qtn)
      | (none, object_types') => .ok ⟨object_types', accs'⟩

/-- The top-level loop over declared object types. -/
def resolveGo (data_connectors : DataConnectors) :
    ResolveState → List QualifiedObject → Except Error ResolveState
  | st, [] => .ok st
  | st, qo :: rest =>
    match resolveStep data_connectors st qo with
    | .error e => .error e
    | .ok st' => resolveGo data_connectors st' rest

/-- The initial state: empty aggregate, empty accumulators. -/
def initState : ResolveState :=
  ⟨[], ⟨[], [], []⟩⟩

/-- The top-level resolve. -/
def resolve (metadata_accessor : MetadataAccessor) (data_connectors : DataConnectors) :
    Except Error DataConnectorTypeMappingsOutput :=
  match resolveGo data_connectors initState metadata_accessor.object_types with
  | .error e => .error e
  | .ok st =>
    .ok ⟨st.object_types, st.accs.graphql_types, st.accs.global_id_enabled_types,
      st.accs.apollo_federation_entity_enabled_types⟩

/-! ### Derived notions used to state the claims -/

/-- The declared field names of an object type, in declaration order. -/
def fieldNames (d : ObjectTypeV1) : List String :=
  d.fields.map (·.name)

/-- The qualified name assigned to a declaration by the top-level driver. -/
abbrev qtnOf (qo : QualifiedObject) : Qualified :=
  ⟨qo.subgraph, qo.object.name⟩

/-- The qualified names of all declarations, in declaration order. -/
def qualifiedNames (m : MetadataAccessor) : List Qualified :=
  m.object_types.map qtnOf

/-- The GraphQL names claimed by one declaration (output first, input
second), in the order the resolver stores them. -/
def declGraphqlNames (d : ObjectTypeV1) : List String :=
  match d.graphql with
  | none => []
  | some g => g.type_name.toList ++ g.input_type_name.toList

/-- The declared GraphQL output name of a type, when any. -/
def gtnOf (d : ObjectTypeV1) : Option String :=
  match d.graphql with
  | none => none
  | some g => g.type_name

/-- The declared GraphQL input name of a type, when any. -/
def gitnOf (d : ObjectTypeV1) : Option String :=
  match d.graphql with
  | none => none
  | some g => g.input_type_name

/-- All GraphQL names claimed by the input, in declaration order. -/
def inputGraphqlNames (m : MetadataAccessor) : List String :=
  (m.object_types.map (fun qo => declGraphqlNames qo.object)).flatten

/-- The (qualified source, native type) table keys declared by one object
type, in declaration order. -/
def dtmKeys (subgraph : String) (d : ObjectTypeV1) : List (Qualified × String) :=
  d.data_connector_type_mapping.map
    (fun dtm => (⟨subgraph, dtm.data_connector_name⟩, dtm.data_connector_object_type))

/-- The column a mapping directive binds for a field, relative to a working
override map: the declared override when one exists, the field name itself
otherwise. -/
def chosenColumnFrom (u : List (String × FieldMappingInput)) (f : String) : String :=
  match lookupKey u f with
  | some (.Column c) => c
  | none => f

/-- The column a mapping directive binds for a field of the object type. -/
def chosenColumn (dtm : DataConnectorTypeMapping) (f : String) : String :=
  chosenColumnFrom (collectOverrides dtm.field_mapping) f

/-- No duplicate names anywhere in the input: qualified type names, global
GraphQL names, per-type field names, per-type (source, native type) keys. -/
def noDuplicateNames (m : MetadataAccessor) : Prop :=
  (qualifiedNames m).Nodup ∧ (inputGraphqlNames m).Nodup ∧
    ∀ qo ∈ m.object_types,
      (fieldNames qo.object).Nodup ∧ (dtmKeys qo.subgraph qo.object).Nodup

instance (m : MetadataAccessor) : Decidable (noDuplicateNames m) := by
  unfold noDuplicateNames; infer_instance

/-- Every listed identity field is a declared field. -/
def identityFieldsResolve (d : ObjectTypeV1) : Bool :=
  match d.global_id_fields with
  | none => true
  | some gif => gif.all (fieldNames d).contains

/-- Every federation key field is a declared field. -/
def federationFieldsResolve (d : ObjectTypeV1) : Bool :=
  match d.graphql with
  | none => true
  | some g =>
    match g.apollo_federation with
    | none => true
    | some af => af.keys.all (fun key => key.fields.all (fieldNames d).contains)

/-- One mapping directive fully resolves: its source and native type exist,
every field's chosen column exists on the native type, and every declared
override names a declared field (so it is consumed). -/
def mappingResolves (dcs : DataConnectors) (subgraph : String) (field_names : List String)
    (dtm : DataConnectorTypeMapping) : Bool :=
  match lookupKey dcs.connectors ⟨subgraph, dtm.data_connector_name⟩ with
  | none => false
  | some ctx =>
    match lookupKey ctx.schema.object_types dtm.data_connector_object_type with
    | none => false
    | some ndc =>
      field_names.all (fun f => containsKey ndc.fields (chosenColumn dtm f)) &&
        dtm.field_mapping.all (fun kv => field_names.contains kv.1)

/-- Everything the claim requires to resolve, resolves: identity fields,
federation key fields, and for every directive its source, native type and
columns (with every override consumed). -/
def allResolve (m : MetadataAccessor) (dcs : DataConnectors) : Bool :=
  m.object_types.all fun qo =>
    identityFieldsResolve qo.object && federationFieldsResolve qo.object &&
      qo.object.data_connector_type_mapping.all
        (mappingResolves dcs qo.subgraph (fieldNames qo.object))

/-- Amendment hypothesis: a type with a non-empty identity group must not
declare a field literally named id. -/
def noIdConflict (d : ObjectTypeV1) : Bool :=
  match d.global_id_fields with
  | none => true
  | some gif => gif.isEmpty || !(fieldNames d).contains "id"

/-- Amendment hypothesis: a declared federation configuration has a
non-empty key-group sequence and every key group is non-empty. -/
def federationNonEmpty (d : ObjectTypeV1) : Bool :=
  match d.graphql with
  | none => true
  | some g =>
    match g.apollo_federation with
    | none => true
    | some af => !af.keys.isEmpty && af.keys.all (fun key => !key.fields.isEmpty)

/-- The amendment hypotheses, over the whole input. -/
def allWellFormed (m : MetadataAccessor) : Bool :=
  m.object_types.all fun qo => noIdConflict qo.object && federationNonEmpty qo.object

/-- The federation registration condition actually implemented: a federation
configuration is declared and every key group is non-empty with all of its
fields resolving (the key-group sequence itself may be empty). -/
def federationRegisters (d : ObjectTypeV1) : Bool :=
  match d.graphql with
  | none => false
  | some g =>
    match g.apollo_federation with
    | none => false
    | some af =>
      af.keys.all (fun key => !key.fields.isEmpty && key.fields.all (fieldNames d).contains)

/-- The identity-stage success condition: when the identity group is
declared and non-empty, no field named id is declared and every listed
identity field resolves. -/
def identityOk (d : ObjectTypeV1) : Bool :=
  identityFieldsResolve d && noIdConflict d

/-- The accumulator record carried by either outcome of
resolve_object_type (or of one of its stages). -/
def resultAccs {α : Type} : Except (Error × Accs) (α × Accs) → Accs
  | .error (_, a) => a
  | .ok (_, a) => a

/-- The federation registration condition at the level of the GraphQL stage:
stated against a resolved field map rather than a declaration. -/
def fedRegistersOn (graphql : Option ObjectTypeGraphQLConfig)
    (rf : List (String × FieldDefinition)) : Bool :=
  match graphql with
  | none => false
  | some g =>
    match g.apollo_federation with
    | none => false
    | some af =>
      af.keys.all (fun key => !key.fields.isEmpty && key.fields.all (containsKey rf))

/-- The resolved field map resolve_object_type builds for a duplicate-free
field list. -/
def resolvedFieldsOf (subgraph : String) (fs : List FieldDefinitionInput) :
    List (String × FieldDefinition) :=
  fs.map fun f =>
    (f.name, { field_type := mk_qualified_type_reference f.field_type subgraph
               description := f.description
               deprecated := f.deprecated })

/-! ### Concrete example inputs -/

/-- Example native type: users(id int8, name text). -/
def exNdcUsers : NdcObjectType :=
  ⟨[("id", ⟨"int8"⟩), ("name", ⟨"text"⟩)]⟩

/-- Example data connector context exposing the users native type. -/
def exCtx : DataConnectorContext :=
  ⟨⟨[("users", exNdcUsers)]⟩⟩

/-- Example registry: connector db configured under namespace app. -/
def exDcs : DataConnectors :=
  ⟨[(⟨"app", "db"⟩, exCtx)]⟩

/-- Example resolved object type User with fields id, name. -/
def exTR : ObjectTypeRepresentation :=
  ⟨[("id", ⟨⟨"app", "Int"⟩, none, none⟩), ("name", ⟨⟨"app", "String"⟩, none, none⟩)],
    [], none, none, none, none⟩

/-- A declared type with fields id and x and identity group [x]: no duplicate
names anywhere and every name resolves, yet the id field conflicts with the
identity configuration. -/
def exIdConflictInput : MetadataAccessor :=
  ⟨[⟨"app", { name := "User"
              fields := [⟨"id", "Int", none, none⟩, ⟨"x", "Int", none, none⟩]
              global_id_fields := some ["x"] }⟩]⟩

/-- A fully valid input: one type, one source mapping, no overrides. -/
def exGoodInput : MetadataAccessor :=
  ⟨[⟨"app", { name := "User"
              fields := [⟨"id", "Int", none, none⟩, ⟨"name", "String", none, none⟩]
              graphql := some { type_name := some "User" }
              data_connector_type_mapping := [⟨"db", "users", []⟩] }⟩]⟩

/-- A declared type whose federation configuration has an empty key-group
sequence. -/
def exEmptyFedType : ObjectTypeV1 :=
  { name := "User"
    fields := [⟨"id", "Int", none, none⟩]
    graphql := some { apollo_federation := some ⟨[]⟩ } }

/-- A declared type with two fields named a (of different types). -/
def exDupFieldType : ObjectTypeV1 :=
  { name := "User"
    fields := [⟨"a", "Int", none, none⟩, ⟨"a", "String", none, none⟩] }

/-- A declared type with an identity field age that does not exist. -/
def exUnknownIdType : ObjectTypeV1 :=
  { name := "User"
    fields := [⟨"name", "String", none, none⟩]
    global_id_fields := some ["age"] }

/-- A minimal valid declaration: type User with one field id. -/
def exSimpleDecl : QualifiedObject :=
  ⟨"app", { name := "User", fields := [⟨"id", "Int", none, none⟩] }⟩

/-- The driver state after resolving exSimpleDecl from the initial state. -/
def exSimpleState : ResolveState :=
  ⟨[(⟨"app", "User"⟩,
      ⟨⟨[("id", ⟨⟨"app", "Int"⟩, none, none⟩)], [], none, none, none, none⟩, []⟩)],
    ⟨[], [], []⟩⟩

/-- Duplicate declarations of one type whose own field list is itself
invalid (two fields named a). -/
def exDupTypeBadFields : MetadataAccessor :=
  ⟨[⟨"app", exDupFieldType⟩, ⟨"app", exDupFieldType⟩]⟩

/-! ### Association-list lemmas -/

theorem lookupKey_isSome_iff {κ ν : Type} [DecidableEq κ] (l : List (κ × ν)) (k : κ) :
    (lookupKey l k).isSome = true ↔ k ∈ keysOf l := by
  induction l with
  | nil => simp [lookupKey, keysOf]
  | cons kv rest ih =>
    obtain ⟨k', v'⟩ := kv
    by_cases h : k' = k
    · subst h; simp [lookupKey, keysOf]
    · simp [lookupKey, keysOf, h, ih]
      intro he; exact absurd he.symm h

theorem lookupKey_eq_none_iff {κ ν : Type} [DecidableEq κ] (l : List (κ × ν)) (k : κ) :
    lookupKey l k = none ↔ k ∉ keysOf l := by
  rw [← lookupKey_isSome_iff]
  cases lookupKey l k <;> simp

theorem containsKey_iff {κ ν : Type} [DecidableEq κ] (l : List (κ × ν)) (k : κ) :
    containsKey l k = true ↔ k ∈ keysOf l := by
  rw [containsKey, lookupKey_isSome_iff]

theorem lookupKey_append_left {κ ν : Type} [DecidableEq κ] (l l₂ : List (κ × ν)) (k : κ)
    (h : (lookupKey l k).isSome) : lookupKey (l ++ l₂) k = lookupKey l k := by
  induction l with
  | nil => simp [lookupKey] at h
  | cons kv rest ih =>
    by_cases hk : kv.1 = k
    · simp [lookupKey, hk]
    · simp only [lookupKey, hk, if_false, List.cons_append] at h ⊢
      exact ih h

theorem lookupKey_append_right {κ ν : Type} [DecidableEq κ] (l l₂ : List (κ × ν)) (k : κ)
    (h : lookupKey l k = none) : lookupKey (l ++ l₂) k = lookupKey l₂ k := by
  induction l with
  | nil => simp
  | cons kv rest ih =>
    by_cases hk : kv.1 = k
    · simp [lookupKey, hk] at h
    · simp only [lookupKey, hk, if_false, List.cons_append] at h ⊢
      exact ih h

theorem insertLookup_fst {κ ν : Type} [DecidableEq κ] (l : List (κ × ν)) (k : κ) (v : ν) :
    (insertLookup l k v).1 = lookupKey l k := by
  induction l with
  | nil => simp [insertLookup, lookupKey]
  | cons kv rest ih =>
    by_cases hk : kv.1 = k
    · simp [insertLookup, lookupKey, hk]
    · simp [insertLookup, lookupKey, hk, ih]

theorem insertLookup_snd_of_none {κ ν : Type} [DecidableEq κ] (l : List (κ × ν)) (k : κ) (v : ν)
    (h : lookupKey l k = none) : (insertLookup l k v).2 = l ++ [(k, v)] := by
  induction l with
  | nil => simp [insertLookup]
  | cons kv rest ih =>
    by_cases hk : kv.1 = k
    · simp [lookupKey, hk] at h
    · simp only [lookupKey, hk, if_false] at h
      simp [insertLookup, hk, ih h]

theorem keysOf_append {κ ν : Type} (l l₂ : List (κ × ν)) :
    keysOf (l ++ l₂) = keysOf l ++ keysOf l₂ := by
  simp [keysOf]

theorem keysOf_insertLookup {κ ν : Type} [DecidableEq κ] (l : List (κ × ν)) (k : κ) (v : ν) :
    keysOf (insertLookup l k v).2 =
      if k ∈ keysOf l then keysOf l else keysOf l ++ [k] := by
  induction l with
  | nil => simp [insertLookup, keysOf]
  | cons kv rest ih =>
    by_cases hk : kv.1 = k
    · subst hk; simp [insertLookup, keysOf]
    · have hne : ¬ k = kv.1 := fun he => hk he.symm
      simp only [insertLookup, hk, if_false, keysOf, List.map_cons, List.mem_cons, hne,
        false_or]
      by_cases hm : k ∈ keysOf rest
      · simp only [keysOf] at hm ih
        simp [hm, ih]
      · simp only [keysOf] at hm ih
        simp [hm, ih]

theorem keysOf_insertLookup_nodup {κ ν : Type} [DecidableEq κ] (l : List (κ × ν)) (k : κ)
    (v : ν) (h : (keysOf l).Nodup) : (keysOf (insertLookup l k v).2).Nodup := by
  rw [keysOf_insertLookup]
  by_cases hm : k ∈ keysOf l
  · simpa [hm]
  · simpa [hm, List.nodup_append] using h

theorem removeLookup_fst {κ ν : Type} [DecidableEq κ] (l : List (κ × ν)) (k : κ) :
    (removeLookup l k).1 = lookupKey l k := by
  induction l with
  | nil => simp [removeLookup, lookupKey]
  | cons kv rest ih =>
    by_cases hk : kv.1 = k
    · simp [removeLookup, lookupKey, hk]
    · simp [removeLookup, lookupKey, hk, ih]

theorem keysOf_removeLookup {κ ν : Type} [DecidableEq κ] (l : List (κ × ν)) (k : κ) :
    keysOf (removeLookup l k).2 = (keysOf l).erase k := by
  induction l with
  | nil => simp [removeLookup, keysOf]
  | cons kv rest ih =>
    by_cases hk : kv.1 = k
    · subst hk
      simp [removeLookup, keysOf, List.erase_cons_head]
    · have hbeq : (kv.1 == k) = false := by simp [hk]
      simp only [removeLookup, hk, if_false, keysOf, List.map_cons, List.erase_cons, hbeq]
      simpa [keysOf] using ih

theorem lookupKey_removeLookup_ne {κ ν : Type} [DecidableEq κ] (l : List (κ × ν)) (k k' : κ)
    (h : k' ≠ k) : lookupKey (removeLookup l k).2 k' = lookupKey l k' := by
  induction l with
  | nil => simp [removeLookup]
  | cons kv rest ih =>
    by_cases hk : kv.1 = k
    · subst hk
      have hne : ¬ kv.1 = k' := fun he => h he.symm
      simp [removeLookup, lookupKey, hne]
    · by_cases hk' : kv.1 = k'
      · simp [removeLookup, lookupKey, hk, hk', h]
      · simp [removeLookup, lookupKey, hk, hk', ih]

theorem nodup_keysOf_removeLookup {κ ν : Type} [DecidableEq κ] (l : List (κ × ν)) (k : κ)
    (h : (keysOf l).Nodup) : (keysOf (removeLookup l k).2).Nodup := by
  rw [keysOf_removeLookup]
  exact h.erase k

theorem keysOf_collectOverrides_nodup (l : List (String × FieldMappingInput)) :
    (keysOf (collectOverrides l)).Nodup := by
  suffices h : ∀ m : List (String × FieldMappingInput), (keysOf m).Nodup →
      (keysOf (l.foldl (fun m kv => (insertLookup m kv.1 kv.2).2) m)).Nodup by
    exact h [] (by simp [keysOf])
  induction l with
  | nil => intro m hm; simpa using hm
  | cons kv rest ih =>
    intro m hm
    exact ih _ (keysOf_insertLookup_nodup m kv.1 kv.2 hm)

theorem keysOf_collectOverrides_subset (l : List (String × FieldMappingInput)) :
    ∀ k ∈ keysOf (collectOverrides l), k ∈ keysOf l := by
  suffices h : ∀ m : List (String × FieldMappingInput),
      ∀ k ∈ keysOf (l.foldl (fun m kv => (insertLookup m kv.1 kv.2).2) m),
        k ∈ keysOf m ∨ k ∈ keysOf l by
    intro k hk
    rcases h [] k hk with h' | h'
    · simp [keysOf] at h'
    · exact h'
  induction l with
  | nil => intro m k hk; exact Or.inl hk
  | cons kv rest ih =>
    intro m k hk
    rcases ih _ k hk with h' | h'
    · rw [keysOf_insertLookup] at h'
      by_cases hm : kv.1 ∈ keysOf m
      · simp only [hm, if_true] at h'
        exact Or.inl h'
      · simp only [hm, if_false, List.mem_append, List.mem_singleton] at h'
        rcases h' with h' | h'
        · exact Or.inl h'
        · subst h'; right; simp [keysOf]
    · right; simp [keysOf] at h' ⊢; exact Or.inr h'

theorem mem_keysOf_insertLookup {κ ν : Type} [DecidableEq κ] (l : List (κ × ν)) (k k' : κ)
    (v : ν) : k' ∈ keysOf (insertLookup l k v).2 ↔ k' ∈ keysOf l ∨ k' = k := by
  rw [keysOf_insertLookup]
  by_cases hm : k ∈ keysOf l
  · simp only [hm, if_true]
    constructor
    · exact Or.inl
    · rintro (h | rfl)
      · exact h
      · exact hm
  · simp [hm]

theorem mem_keysOf_collectOverrides (l : List (String × FieldMappingInput)) (k : String) :
    k ∈ keysOf (collectOverrides l) ↔ k ∈ keysOf l := by
  constructor
  · exact keysOf_collectOverrides_subset l k
  · suffices h : ∀ m : List (String × FieldMappingInput), k ∈ keysOf m ∨ k ∈ keysOf l →
        k ∈ keysOf (l.foldl (fun m kv => (insertLookup m kv.1 kv.2).2) m) by
      intro hk; exact h [] (Or.inr hk)
    induction l with
    | nil =>
      intro m hm
      rcases hm with h' | h'
      · exact h'
      · simp [keysOf] at h'
    | cons kv rest ih =>
      intro m hm
      apply ih
      rcases hm with h' | h'
      · exact Or.inl ((mem_keysOf_insertLookup m kv.1 k kv.2).2 (Or.inl h'))
      · simp only [keysOf, List.map_cons, List.mem_cons] at h'
        rcases h' with h' | h'
        · exact Or.inl ((mem_keysOf_insertLookup m kv.1 k kv.2).2 (Or.inr h'))
        · exact Or.inr h'

theorem lookupKey_append_singleton_ne {κ ν : Type} [DecidableEq κ] (l : List (κ × ν))
    (f : κ) (v : ν) (k : κ) (h : k ≠ f) :
    lookupKey (l ++ [(f, v)]) k = lookupKey l k := by
  induction l with
  | nil => simp [lookupKey, h.symm]
  | cons kv rest ih => by_cases hk : kv.1 = k <;> simp [lookupKey, hk, ih]

/-! ### Lemmas about the field-mapping loop -/

theorem chosenColumnFrom_removeLookup_ne (u : List (String × FieldMappingInput))
    (k f : String) (h : f ≠ k) :
    chosenColumnFrom (removeLookup u k).2 f = chosenColumnFrom u f := by
  unfold chosenColumnFrom
  rw [lookupKey_removeLookup_ne u k f h]

/-- Success shape of the field-mapping loop: every field gets exactly one
binding (override or default), the left-over override map keys are the
initial keys not matched by any field. -/
theorem resolveFieldMappingsLoop_ok (qtn : Qualified) (ndc : NdcObjectType) :
    ∀ (F : List String) (u : List (String × FieldMappingInput))
      (r : List (String × FieldMapping)),
    F.Nodup → (keysOf u).Nodup →
    (∀ f ∈ F, lookupKey r f = none) →
    (∀ f ∈ F, containsKey ndc.fields (chosenColumnFrom u f) = true) →
    ∃ u' r', resolveFieldMappingsLoop qtn ndc F u r = .ok (u', r') ∧
      keysOf r' = keysOf r ++ F ∧
      (keysOf u').Nodup ∧
      (∀ k, k ∈ keysOf u' ↔ k ∈ keysOf u ∧ k ∉ F) ∧
      (∀ f ∈ F, ∃ sc, lookupKey ndc.fields (chosenColumnFrom u f) = some sc ∧
        lookupKey r' f = some ⟨chosenColumnFrom u f, sc.type⟩) ∧
      (∀ k, k ∉ F → lookupKey r' k = lookupKey r k) := by
  intro F
  induction F with
  | nil =>
    intro u r _ hu _ _
    exact ⟨u, r, rfl, by simp, hu, by simp, by simp, by simp⟩
  | cons f rest ih =>
    intro u r hF hu hr hcol
    have hfrest : f ∉ rest := (List.nodup_cons.1 hF).1
    have hrest : rest.Nodup := (List.nodup_cons.1 hF).2
    -- the override removed for f is the lookup in u
    have hrem : (removeLookup u f).1 = lookupKey u f := removeLookup_fst u f
    -- the chosen column for f and the native column it resolves to
    have hcolf : containsKey ndc.fields (chosenColumnFrom u f) = true :=
      hcol f (List.mem_cons_self f rest)
    obtain ⟨sc, hsc⟩ : ∃ sc, lookupKey ndc.fields (chosenColumnFrom u f) = some sc := by
      have := (containsKey_iff ndc.fields (chosenColumnFrom u f)).1 hcolf
      rw [← lookupKey_isSome_iff] at this
      exact Option.isSome_iff_exists.1 this
    have hget : get_column ndc f (chosenColumnFrom u f) = .ok sc := by
      unfold get_column
      rw [hsc]
    have hrf : lookupKey r f = none := hr f (List.mem_cons_self f rest)
    have hins1 : (insertLookup r f ⟨chosenColumnFrom u f, sc.type⟩).1 = none := by
      rw [insertLookup_fst]; exact hrf
    have hins2 : (insertLookup r f ⟨chosenColumnFrom u f, sc.type⟩).2 =
        r ++ [(f, ⟨chosenColumnFrom u f, sc.type⟩)] :=
      insertLookup_snd_of_none r f _ hrf
    have hins : insertLookup r f ⟨chosenColumnFrom u f, sc.type⟩ =
        (none, r ++ [(f, ⟨chosenColumnFrom u f, sc.type⟩)]) := by
      rw [← hins1, ← hins2]
    -- reduce one iteration of the loop
    have hstep : resolveFieldMappingsLoop qtn ndc (f :: rest) u r =
        resolveFieldMappingsLoop qtn ndc rest (removeLookup u f).2
          (r ++ [(f, ⟨chosenColumnFrom u f, sc.type⟩)]) := by
      have hcc : (match (removeLookup u f).1 with
          | some (.Column c) => c
          | none => f) = chosenColumnFrom u f := by
        rw [hrem]; unfold chosenColumnFrom
        cases lookupKey u f with
        | none => rfl
        | some fm => cases fm with | Column c => rfl
      simp only [resolveFieldMappingsLoop, hcc, hget, hins]
    -- the loop hypotheses for the tail
    have hr' : ∀ g ∈ rest, lookupKey (r ++ [(f, ⟨chosenColumnFrom u f, sc.type⟩)]) g = none := by
      intro g hg
      have hgf : g ≠ f := fun he => hfrest (he ▸ hg)
      rw [lookupKey_append_right _ _ _ (hr g (List.mem_cons_of_mem f hg))]
      simp [lookupKey, hgf.symm]
    have hcol' : ∀ g ∈ rest,
        containsKey ndc.fields (chosenColumnFrom (removeLookup u f).2 g) = true := by
      intro g hg
      have hgf : g ≠ f := fun he => hfrest (he ▸ hg)
      rw [chosenColumnFrom_removeLookup_ne u f g hgf]
      exact hcol g (List.mem_cons_of_mem f hg)
    obtain ⟨u', r', hok, hkeys, hu', humem, hbind, hpres⟩ :=
      ih (removeLookup u f).2 (r ++ [(f, ⟨chosenColumnFrom u f, sc.type⟩)]) hrest
        (nodup_keysOf_removeLookup u f hu) hr' hcol'
    refine ⟨u', r', by rw [hstep]; exact hok, ?_, hu', ?_, ?_, ?_⟩
    · rw [hkeys, keysOf_append]
      simp [keysOf]
    · intro k
      rw [humem k]
      constructor
      · rintro ⟨hk, hk2⟩
        rw [keysOf_removeLookup, List.Nodup.mem_erase_iff hu] at hk
        refine ⟨hk.2, ?_⟩
        intro hmem
        rcases List.mem_cons.1 hmem with he | hmem2
        · exact hk.1 he
        · exact hk2 hmem2
      · rintro ⟨hk, hk2⟩
        have hkf : k ≠ f := fun he => hk2 (he ▸ List.mem_cons_self f rest)
        refine ⟨?_, fun hmem => hk2 (List.mem_cons_of_mem f hmem)⟩
        rw [keysOf_removeLookup, List.Nodup.mem_erase_iff hu]
        exact ⟨hkf, hk⟩
    · intro g hg
      rcases List.mem_cons.1 hg with rfl | hg2
      · refine ⟨sc, hsc, ?_⟩
        rw [hpres g hfrest, lookupKey_append_right _ _ _ hrf]
        simp [lookupKey]
      · have hgf : g ≠ f := fun he => hfrest (he ▸ hg2)
        obtain ⟨sc2, hsc2, hbind2⟩ := hbind g hg2
        rw [chosenColumnFrom_removeLookup_ne u f g hgf] at hsc2 hbind2
        exact ⟨sc2, hsc2, hbind2⟩
    · intro k hk
      have hkf : k ≠ f := fun he => hk (he ▸ List.mem_cons_self f rest)
      have hkrest : k ∉ rest := fun he => hk (List.mem_cons_of_mem f he)
      rw [hpres k hkrest, lookupKey_append_singleton_ne r f _ k hkf]

/-- One loop iteration whose chosen column exists steps to the tail with the
override consumed and the binding recorded. -/
theorem resolveFieldMappingsLoop_cons_ok (qtn : Qualified) (ndc : NdcObjectType)
    (f : String) (rest : List String) (u : List (String × FieldMappingInput))
    (r : List (String × FieldMapping))
    (hc : containsKey ndc.fields (chosenColumnFrom u f) = true)
    (hrf : lookupKey r f = none) :
    ∃ sc, lookupKey ndc.fields (chosenColumnFrom u f) = some sc ∧
      resolveFieldMappingsLoop qtn ndc (f :: rest) u r =
        resolveFieldMappingsLoop qtn ndc rest (removeLookup u f).2
          (r ++ [(f, ⟨chosenColumnFrom u f, sc.type⟩)]) := by
  obtain ⟨sc, hsc⟩ : ∃ sc, lookupKey ndc.fields (chosenColumnFrom u f) = some sc := by
    have := (containsKey_iff ndc.fields (chosenColumnFrom u f)).1 hc
    rw [← lookupKey_isSome_iff] at this
    exact Option.isSome_iff_exists.1 this
  have hget : get_column ndc f (chosenColumnFrom u f) = .ok sc := by
    unfold get_column; rw [hsc]
  have hins : insertLookup r f ⟨chosenColumnFrom u f, sc.type⟩ =
      (none, r ++ [(f, ⟨chosenColumnFrom u f, sc.type⟩)]) := by
    have h1 : (insertLookup r f ⟨chosenColumnFrom u f, sc.type⟩).1 = none := by
      rw [insertLookup_fst]; exact hrf
    have h2 : (insertLookup r f ⟨chosenColumnFrom u f, sc.type⟩).2 =
        r ++ [(f, ⟨chosenColumnFrom u f, sc.type⟩)] :=
      insertLookup_snd_of_none r f _ hrf
    rw [← h1, ← h2]
  have hcc : (match (removeLookup u f).1 with
      | some (.Column c) => c
      | none => f) = chosenColumnFrom u f := by
    rw [removeLookup_fst]; unfold chosenColumnFrom
    cases lookupKey u f with
    | none => rfl
    | some fm => cases fm with | Column c => rfl
  exact ⟨sc, hsc, by simp only [resolveFieldMappingsLoop, hcc, hget, hins]⟩

/-- One loop iteration whose chosen column is missing fails with
unknown-target-column naming the field and that column. -/
theorem resolveFieldMappingsLoop_cons_err (qtn : Qualified) (ndc : NdcObjectType)
    (f : String) (rest : List String) (u : List (String × FieldMappingInput))
    (r : List (String × FieldMapping))
    (hc : containsKey ndc.fields (chosenColumnFrom u f) = false) :
    resolveFieldMappingsLoop qtn ndc (f :: rest) u r =
      .error (.UnknownTargetColumn f (chosenColumnFrom u f)) := by
  have hnone : lookupKey ndc.fields (chosenColumnFrom u f) = none := by
    rw [lookupKey_eq_none_iff]
    intro hm
    rw [← containsKey_iff] at hm
    rw [hm] at hc
    exact Bool.true_eq_false.mp hc
  have hget : get_column ndc f (chosenColumnFrom u f) =
      .error (.UnknownTargetColumn f (chosenColumnFrom u f)) := by
    unfold get_column; rw [hnone]
  have hcc : (match (removeLookup u f).1 with
      | some (.Column c) => c
      | none => f) = chosenColumnFrom u f := by
    rw [removeLookup_fst]; unfold chosenColumnFrom
    cases lookupKey u f with
    | none => rfl
    | some fm => cases fm with | Column c => rfl
  simp only [resolveFieldMappingsLoop, hcc, hget]

/-- Failure shape of the field-mapping loop: the first field in stored order
whose chosen column is missing from the native type decides the error. -/
theorem resolveFieldMappingsLoop_err_column (qtn : Qualified) (ndc : NdcObjectType) :
    ∀ (F₁ : List String) (f : String) (F₂ : List String)
      (u : List (String × FieldMappingInput)) (r : List (String × FieldMapping)),
    (F₁ ++ f :: F₂).Nodup →
    (∀ g ∈ F₁, lookupKey r g = none) → lookupKey r f = none →
    (∀ g ∈ F₁, containsKey ndc.fields (chosenColumnFrom u g) = true) →
    containsKey ndc.fields (chosenColumnFrom u f) = false →
    resolveFieldMappingsLoop qtn ndc (F₁ ++ f :: F₂) u r =
      .error (.UnknownTargetColumn f (chosenColumnFrom u f)) := by
  intro F₁
  induction F₁ with
  | nil =>
    intro f F₂ u r _ _ _ _ hcf
    exact resolveFieldMappingsLoop_cons_err qtn ndc f F₂ u r hcf
  | cons g F₁' ih =>
    intro f F₂ u r hF hr1 hrf hc1 hcf
    have hgmem : g ∈ g :: F₁' := List.mem_cons_self g F₁'
    have hF' : (g :: (F₁' ++ f :: F₂)).Nodup := by rw [← List.cons_append]; exact hF
    have hgnotin : g ∉ F₁' ++ f :: F₂ := (List.nodup_cons.1 hF').1
    have htail : (F₁' ++ f :: F₂).Nodup := (List.nodup_cons.1 hF').2
    have hgf : f ≠ g := by
      intro he
      exact hgnotin (by subst he; exact List.mem_append_right _ (List.mem_cons_self f F₂))
    obtain ⟨sc, _, hstep⟩ :=
      resolveFieldMappingsLoop_cons_ok qtn ndc g (F₁' ++ f :: F₂) u r
        (hc1 g hgmem) (hr1 g hgmem)
    rw [List.cons_append, hstep]
    have hres := ih f F₂ (removeLookup u g).2 (r ++ [(g, ⟨chosenColumnFrom u g, sc.type⟩)])
      htail
      (fun g' hg' => by
        have hgg : g' ≠ g := fun he => hgnotin (he ▸ List.mem_append_left _ hg')
        rw [lookupKey_append_singleton_ne r g _ g' hgg]
        exact hr1 g' (List.mem_cons_of_mem g hg'))
      (by
        rw [lookupKey_append_singleton_ne r g _ f hgf]
        exact hrf)
      (fun g' hg' => by
        have hgg : g' ≠ g := fun he => hgnotin (he ▸ List.mem_append_left _ hg')
        rw [chosenColumnFrom_removeLookup_ne u g g' hgg]
        exact hc1 g' (List.mem_cons_of_mem g hg'))
      (by
        rw [chosenColumnFrom_removeLookup_ne u g f hgf]
        exact hcf)
    rw [hres, chosenColumnFrom_removeLookup_ne u g f hgf]

/-- The field-mapping loop never fails with duplicate-field-mapping when the
walked field names are unique and none is already recorded. -/
theorem resolveFieldMappingsLoop_ne_dupfm (qtn : Qualified) (ndc : NdcObjectType) :
    ∀ (F : List String) (u : List (String × FieldMappingInput))
      (r : List (String × FieldMapping)),
    F.Nodup → (∀ f ∈ F, lookupKey r f = none) →
    ∀ tn fn, resolveFieldMappingsLoop qtn ndc F u r ≠
      .error (.DuplicateFieldMapping tn fn) := by
  intro F
  induction F with
  | nil =>
    intro u r _ _ tn fn h
    simp [resolveFieldMappingsLoop] at h
  | cons f rest ih =>
    intro u r hF hr tn fn
    cases hc : containsKey ndc.fields (chosenColumnFrom u f) with
    | false =>
      rw [resolveFieldMappingsLoop_cons_err qtn ndc f rest u r hc]
      intro h
      simp at h
    | true =>
      obtain ⟨sc, _, hstep⟩ :=
        resolveFieldMappingsLoop_cons_ok qtn ndc f rest u r hc
          (hr f (List.mem_cons_self f rest))
      rw [hstep]
      have hfrest : f ∉ rest := (List.nodup_cons.1 hF).1
      exact ih (removeLookup u f).2 (r ++ [(f, ⟨chosenColumnFrom u f, sc.type⟩)])
        (List.nodup_cons.1 hF).2
        (fun g hg => by
          have hgf : g ≠ f := fun he => hfrest (he ▸ hg)
          rw [lookupKey_append_singleton_ne r f _ g hgf]
          exact hr g (List.mem_cons_of_mem f hg)) tn fn

/-- Inversion: when the field-mapping loop succeeds, earlier bindings are
preserved and every walked field is bound to its chosen column with the
native column type copied over. -/
theorem resolveFieldMappingsLoop_ok_bindings (qtn : Qualified) (ndc : NdcObjectType) :
    ∀ (F : List String) (u : List (String × FieldMappingInput))
      (r : List (String × FieldMapping)) (u' : List (String × FieldMappingInput))
      (r' : List (String × FieldMapping)),
    F.Nodup → (∀ f ∈ F, lookupKey r f = none) →
    resolveFieldMappingsLoop qtn ndc F u r = .ok (u', r') →
    (∀ k, k ∉ F → lookupKey r' k = lookupKey r k) ∧
      (∀ f ∈ F, ∃ sc, lookupKey ndc.fields (chosenColumnFrom u f) = some sc ∧
        lookupKey r' f = some ⟨chosenColumnFrom u f, sc.type⟩) := by
  intro F
  induction F with
  | nil =>
    intro u r u' r' _ _ hok
    simp only [resolveFieldMappingsLoop, Except.ok.injEq, Prod.mk.injEq] at hok
    exact ⟨fun k _ => by rw [hok.2], by simp⟩
  | cons f rest ih =>
    intro u r u' r' hF hr hok
    have hfrest : f ∉ rest := (List.nodup_cons.1 hF).1
    have hrf : lookupKey r f = none := hr f (List.mem_cons_self f rest)
    cases hc : containsKey ndc.fields (chosenColumnFrom u f) with
    | false =>
      rw [resolveFieldMappingsLoop_cons_err qtn ndc f rest u r hc] at hok
      exact absurd hok (by simp)
    | true =>
      obtain ⟨sc, hsc, hstep⟩ := resolveFieldMappingsLoop_cons_ok qtn ndc f rest u r hc hrf
      rw [hstep] at hok
      have hr1 : ∀ g ∈ rest,
          lookupKey (r ++ [(f, ⟨chosenColumnFrom u f, sc.type⟩)]) g = none := by
        intro g hg
        have hgf : g ≠ f := fun he => hfrest (he ▸ hg)
        rw [lookupKey_append_singleton_ne r f _ g hgf]
        exact hr g (List.mem_cons_of_mem f hg)
      obtain ⟨hpres, hbind⟩ := ih (removeLookup u f).2 _ u' r' (List.nodup_cons.1 hF).2 hr1 hok
      constructor
      · intro k hk
        have hkf : k ≠ f := fun he => hk (he ▸ List.mem_cons_self f rest)
        have hkrest : k ∉ rest := fun he => hk (List.mem_cons_of_mem f he)
        rw [hpres k hkrest, lookupKey_append_singleton_ne r f _ k hkf]
      · intro g hg
        rcases List.mem_cons.1 hg with rfl | hg2
        · refine ⟨sc, hsc, ?_⟩
          rw [hpres g hfrest, lookupKey_append_right _ _ _ hrf]
          simp [lookupKey]
        · have hgf : g ≠ f := fun he => hfrest (he ▸ hg2)
          obtain ⟨sc2, hsc2, hbind2⟩ := hbind g hg2
          rw [chosenColumnFrom_removeLookup_ne u f g hgf] at hsc2 hbind2
          exact ⟨sc2, hsc2, hbind2⟩

/-! ### Lemmas about resolve_data_connector_type_mapping -/

/-- Success of the field-mapping resolver when the source, native type and
every chosen column resolve and every declared override is consumed. -/
theorem resolve_dctm_ok (dtm : DataConnectorTypeMapping) (qtn : Qualified) (s : String)
    (tr : ObjectTypeRepresentation) (dcs : DataConnectors) (ctx : DataConnectorContext)
    (ndc : NdcObjectType)
    (hN : (keysOf tr.fields).Nodup)
    (hctx : lookupKey dcs.connectors ⟨s, dtm.data_connector_name⟩ = some ctx)
    (hndc : lookupKey ctx.schema.object_types dtm.data_connector_object_type = some ndc)
    (hcols : ∀ f ∈ keysOf tr.fields, containsKey ndc.fields (chosenColumn dtm f) = true)
    (hcons : ∀ k ∈ keysOf dtm.field_mapping, k ∈ keysOf tr.fields) :
    ∃ fm, resolve_data_connector_type_mapping dtm qtn s tr dcs =
        .ok (.Object dtm.data_connector_object_type fm) ∧
      keysOf fm = keysOf tr.fields ∧
      ∀ f ∈ keysOf tr.fields, ∃ sc, lookupKey ndc.fields (chosenColumn dtm f) = some sc ∧
        lookupKey fm f = some ⟨chosenColumn dtm f, sc.type⟩ := by
  obtain ⟨u', r', hok, hkeys, _, humem, hbind, _⟩ :=
    resolveFieldMappingsLoop_ok qtn ndc (keysOf tr.fields)
      (collectOverrides dtm.field_mapping) [] hN
      (keysOf_collectOverrides_nodup dtm.field_mapping)
      (fun f _ => rfl) hcols
  have hu' : u' = [] := by
    cases hu0 : u' with
    | nil => rfl
    | cons kv rest =>
      exfalso
      have hk : kv.1 ∈ keysOf u' := by rw [hu0]; simp [keysOf]
      obtain ⟨hk1, hk2⟩ := (humem kv.1).1 hk
      rw [mem_keysOf_collectOverrides] at hk1
      exact hk2 (hcons kv.1 hk1)
  refine ⟨r', ?_, by simpa using hkeys, hbind⟩
  simp only [resolve_data_connector_type_mapping, hctx, hndc, hok, hu']
  rfl

/-! ### Claims about the field-mapping resolver -/

/-- C2: for every resolved object type (whose stored field names are unique,
the invariant of the resolved field map) and every mapping directive whose
source and native type resolve, the resolver walks the fields in stored
order binding each field to its declared override column when one exists and
to a column named like the field otherwise; on success every field is bound
to its chosen column with the native column type copied, and the first field
in stored order whose chosen column is missing from the native type makes it
fail with unknown-target-column carrying that field name and that column
name. -/
theorem claim_C2 (dtm : DataConnectorTypeMapping) (qtn : Qualified) (s : String)
    (tr : ObjectTypeRepresentation) (dcs : DataConnectors) (ctx : DataConnectorContext)
    (ndc : NdcObjectType)
    (hN : (keysOf tr.fields).Nodup)
    (hctx : lookupKey dcs.connectors ⟨s, dtm.data_connector_name⟩ = some ctx)
    (hndc : lookupKey ctx.schema.object_types dtm.data_connector_object_type = some ndc) :
    (∀ n fm, resolve_data_connector_type_mapping dtm qtn s tr dcs = .ok (.Object n fm) →
      ∀ f ∈ keysOf tr.fields, ∃ sc, lookupKey ndc.fields (chosenColumn dtm f) = some sc ∧
        lookupKey fm f = some ⟨chosenColumn dtm f, sc.type⟩) ∧
    (∀ F₁ f F₂, keysOf tr.fields = F₁ ++ f :: F₂ →
      (∀ g ∈ F₁, containsKey ndc.fields (chosenColumn dtm g) = true) →
      containsKey ndc.fields (chosenColumn dtm f) = false →
      resolve_data_connector_type_mapping dtm qtn s tr dcs =
        .error (.UnknownTargetColumn f (chosenColumn dtm f))) := by
  constructor
  · intro n fm hok
    simp only [resolve_data_connector_type_mapping, hctx, hndc] at hok
    cases hloop : resolveFieldMappingsLoop qtn ndc (keysOf tr.fields)
        (collectOverrides dtm.field_mapping) [] with
    | error e => simp only [hloop] at hok; exact absurd hok (by simp)
    | ok p =>
      obtain ⟨u', r'⟩ := p
      simp only [hloop] at hok
      split at hok
      · simp only [Except.ok.injEq, TypeMapping.Object.injEq] at hok
        obtain ⟨_, hfm⟩ := hok
        subst hfm
        exact (resolveFieldMappingsLoop_ok_bindings qtn ndc (keysOf tr.fields)
          (collectOverrides dtm.field_mapping) [] u' r' hN (fun f _ => rfl) hloop).2
      · simp at hok
  · intro F₁ f F₂ hsplit hc1 hcf
    have herr := resolveFieldMappingsLoop_err_column qtn ndc F₁ f F₂
      (collectOverrides dtm.field_mapping) [] (hsplit ▸ hN)
      (fun g _ => rfl) rfl hc1 hcf
    simp only [resolve_data_connector_type_mapping, hctx, hndc, hsplit, herr]
    rfl

/-- Witness for C2: the example User type mapped onto the users native type
under connector db. -/
theorem claim_C2_witness :
    ((keysOf exTR.fields).Nodup ∧
      lookupKey exDcs.connectors ⟨"app", "db"⟩ = some exCtx ∧
      lookupKey exCtx.schema.object_types "users" = some exNdcUsers) ∧
    ((∀ n fm, resolve_data_connector_type_mapping ⟨"db", "users", []⟩ ⟨"app", "User"⟩
        "app" exTR exDcs = .ok (.Object n fm) →
      ∀ f ∈ keysOf exTR.fields,
        ∃ sc, lookupKey exNdcUsers.fields (chosenColumn ⟨"db", "users", []⟩ f) = some sc ∧
          lookupKey fm f = some ⟨chosenColumn ⟨"db", "users", []⟩ f, sc.type⟩) ∧
    (∀ F₁ f F₂, keysOf exTR.fields = F₁ ++ f :: F₂ →
      (∀ g ∈ F₁, containsKey exNdcUsers.fields (chosenColumn ⟨"db", "users", []⟩ g) = true) →
      containsKey exNdcUsers.fields (chosenColumn ⟨"db", "users", []⟩ f) = false →
      resolve_data_connector_type_mapping ⟨"db", "users", []⟩ ⟨"app", "User"⟩ "app" exTR exDcs =
        .error (.UnknownTargetColumn f (chosenColumn ⟨"db", "users", []⟩ f)))) :=
  ⟨⟨by decide, by decide, by decide⟩,
    claim_C2 ⟨"db", "users", []⟩ ⟨"app", "User"⟩ "app" exTR exDcs exCtx exNdcUsers
      (by decide) (by decide) (by decide)⟩

/-- C7: when the source, native type and every chosen column resolve but at
least one declared override was not consumed (its field is not on the object
type), the resolver fails with unknown-source-fields reporting exactly the
unconsumed override field names, sorted and without duplicates. -/
theorem claim_C7 (dtm : DataConnectorTypeMapping) (qtn : Qualified) (s : String)
    (tr : ObjectTypeRepresentation) (dcs : DataConnectors) (ctx : DataConnectorContext)
    (ndc : NdcObjectType)
    (hN : (keysOf tr.fields).Nodup)
    (hctx : lookupKey dcs.connectors ⟨s, dtm.data_connector_name⟩ = some ctx)
    (hndc : lookupKey ctx.schema.object_types dtm.data_connector_object_type = some ndc)
    (hcols : ∀ f ∈ keysOf tr.fields, containsKey ndc.fields (chosenColumn dtm f) = true)
    (hstale : ∃ k ∈ keysOf dtm.field_mapping, k ∉ keysOf tr.fields) :
    ∃ names, resolve_data_connector_type_mapping dtm qtn s tr dcs =
        .error (.UnknownSourceFields qtn names) ∧
      names.Sorted (· ≤ ·) ∧ names.Nodup ∧
      ∀ k, k ∈ names ↔ k ∈ keysOf dtm.field_mapping ∧ k ∉ keysOf tr.fields := by
  obtain ⟨u', r', hok, _, hu'nodup, humem, _, _⟩ :=
    resolveFieldMappingsLoop_ok qtn ndc (keysOf tr.fields)
      (collectOverrides dtm.field_mapping) [] hN
      (keysOf_collectOverrides_nodup dtm.field_mapping)
      (fun f _ => rfl) hcols
  obtain ⟨k₀, hk₀m, hk₀n⟩ := hstale
  have hk₀u : k₀ ∈ keysOf u' := by
    rw [humem k₀]
    exact ⟨(mem_keysOf_collectOverrides dtm.field_mapping k₀).2 hk₀m, hk₀n⟩
  have hemp : u'.isEmpty = false := by
    cases hu0 : u' with
    | nil => rw [hu0] at hk₀u; simp [keysOf] at hk₀u
    | cons kv rest => rfl
  refine ⟨sortStrings (keysOf u'), ?_, ?_, ?_, ?_⟩
  · simp only [resolve_data_connector_type_mapping, hctx, hndc, hok, hemp]
    rfl
  · exact List.sorted_insertionSort (· ≤ ·) (keysOf u')
  · exact (List.perm_insertionSort (· ≤ ·) (keysOf u')).nodup_iff.2 hu'nodup
  · intro k
    rw [sortStrings, (List.perm_insertionSort (· ≤ ·) (keysOf u')).mem_iff, humem k,
      mem_keysOf_collectOverrides]

/-- Witness for C7: object type with fields id and name, a stale override
for the absent field nickname. -/
theorem claim_C7_witness :
    ∃ names, resolve_data_connector_type_mapping
        ⟨"db", "users", [("nickname", .Column "nick_col")]⟩ ⟨"app", "User"⟩ "app" exTR exDcs =
        .error (.UnknownSourceFields ⟨"app", "User"⟩ names) ∧
      names.Sorted (· ≤ ·) ∧ names.Nodup ∧
      ∀ k, k ∈ names ↔
        k ∈ keysOf (⟨"db", "users", [("nickname", .Column "nick_col")]⟩ :
          DataConnectorTypeMapping).field_mapping ∧ k ∉ keysOf exTR.fields :=
  claim_C7 ⟨"db", "users", [("nickname", .Column "nick_col")]⟩ ⟨"app", "User"⟩ "app"
    exTR exDcs exCtx exNdcUsers (by decide) (by decide) (by decide) (by decide)
    ⟨"nickname", by decide, by decide⟩

/-- C8: the resolver never fails with duplicate-field-mapping: the single
pass walks the resolved field map's keys, which are unique (the invariant of
the resolved field map), so each field name is inserted at most once. -/
theorem claim_C8 (dtm : DataConnectorTypeMapping) (qtn : Qualified) (s : String)
    (tr : ObjectTypeRepresentation) (dcs : DataConnectors)
    (hN : (keysOf tr.fields).Nodup) :
    ∀ tn fn, resolve_data_connector_type_mapping dtm qtn s tr dcs ≠
      .error (.DuplicateFieldMapping tn fn) := by
  intro tn fn h
  cases hctx : lookupKey dcs.connectors ⟨s, dtm.data_connector_name⟩ with
  | none =>
    simp only [resolve_data_connector_type_mapping, hctx] at h
    simp at h
  | some ctx =>
    cases hndc : lookupKey ctx.schema.object_types dtm.data_connector_object_type with
    | none =>
      simp only [resolve_data_connector_type_mapping, hctx, hndc] at h
      simp at h
    | some ndc =>
      cases hloop : resolveFieldMappingsLoop qtn ndc (keysOf tr.fields)
          (collectOverrides dtm.field_mapping) [] with
      | error e =>
        simp only [resolve_data_connector_type_mapping, hctx, hndc, hloop] at h
        simp only [Except.error.injEq] at h
        exact resolveFieldMappingsLoop_ne_dupfm qtn ndc (keysOf tr.fields)
          (collectOverrides dtm.field_mapping) [] hN (fun f _ => rfl) tn fn
          (by rw [hloop, h])
      | ok p =>
        obtain ⟨u', r'⟩ := p
        simp only [resolve_data_connector_type_mapping, hctx, hndc, hloop] at h
        cases hemp : u'.isEmpty with
        | true => rw [hemp] at h; simp at h
        | false => rw [hemp] at h; simp at h

/-- Witness for C8: the example User type and the users mapping directive. -/
theorem claim_C8_witness :
    (keysOf exTR.fields).Nodup ∧
    resolve_data_connector_type_mapping ⟨"db", "users", []⟩ ⟨"app", "User"⟩ "app" exTR exDcs ≠
      .error (.DuplicateFieldMapping ⟨"app", "User"⟩ "id") :=
  ⟨by decide,
    claim_C8 ⟨"db", "users", []⟩ ⟨"app", "User"⟩ "app" exTR exDcs (by decide)
      ⟨"app", "User"⟩ "id"⟩

/-- C10: the qualified connector name looked up is built from the object
type's own namespace and the declared source name, so when every configured
connector lives under a different namespace the directive fails with
unknown-data-source carrying that constructed name. -/
theorem claim_C10 (dtm : DataConnectorTypeMapping) (qtn : Qualified) (subgraph : String)
    (tr : ObjectTypeRepresentation) (dcs : DataConnectors)
    (h : ∀ p ∈ dcs.connectors, p.1.subgraph ≠ subgraph) :
    resolve_data_connector_type_mapping dtm qtn subgraph tr dcs =
      .error (.UnknownDataConnector ⟨subgraph, dtm.data_connector_name⟩ qtn) := by
  have hnone : lookupKey dcs.connectors ⟨subgraph, dtm.data_connector_name⟩ = none := by
    rw [lookupKey_eq_none_iff]
    intro hm
    obtain ⟨p, hp, hpe⟩ := List.mem_map.1 hm
    exact h p hp (by rw [hpe])
  simp only [resolve_data_connector_type_mapping, hnone]

/-- Witness for C10: the connector db exists only under namespace app, and a
directive of a type living in namespace other cannot reference it. -/
theorem claim_C10_witness :
    (∀ p ∈ exDcs.connectors, p.1.subgraph ≠ "other") ∧
    resolve_data_connector_type_mapping ⟨"db", "users", []⟩ ⟨"other", "User"⟩ "other"
        exTR exDcs =
      .error (.UnknownDataConnector ⟨"other", "db"⟩ ⟨"other", "User"⟩) :=
  ⟨by decide,
    claim_C10 ⟨"db", "users", []⟩ ⟨"other", "User"⟩ "other" exTR exDcs (by decide)⟩

/-! ### Lemmas about resolve_object_type -/

theorem keysOf_resolvedFieldsOf (s : String) (fs : List FieldDefinitionInput) :
    keysOf (resolvedFieldsOf s fs) = fs.map (·.name) := by
  simp [resolvedFieldsOf, keysOf]

/-- The field loop succeeds on a field list whose names are fresh for the
accumulator and mutually distinct, appending the resolved fields in order. -/
theorem resolveFieldsLoop_ok (s : String) (qtn : Qualified) :
    ∀ (fs : List FieldDefinitionInput) (acc : List (String × FieldDefinition)),
    (fs.map (·.name)).Nodup → (∀ f ∈ fs, f.name ∉ keysOf acc) →
    resolveFieldsLoop s qtn fs acc = .ok (acc ++ resolvedFieldsOf s fs) := by
  intro fs
  induction fs with
  | nil => intro acc _ _; simp [resolveFieldsLoop, resolvedFieldsOf]
  | cons f rest ih =>
    intro acc hnd hfresh
    have hf : f.name ∉ keysOf acc := hfresh f (List.mem_cons_self f rest)
    have hlk : lookupKey acc f.name = none := (lookupKey_eq_none_iff acc f.name).2 hf
    have hins : insertLookup acc f.name
        ⟨mk_qualified_type_reference f.field_type s, f.description, f.deprecated⟩ =
        (none, acc ++ [(f.name, ⟨mk_qualified_type_reference f.field_type s,
          f.description, f.deprecated⟩)]) := by
      have h1 := insertLookup_fst acc f.name
        (⟨mk_qualified_type_reference f.field_type s, f.description, f.deprecated⟩ :
          FieldDefinition)
      rw [hlk] at h1
      have h2 := insertLookup_snd_of_none acc f.name
        (⟨mk_qualified_type_reference f.field_type s, f.description, f.deprecated⟩ :
          FieldDefinition) hlk
      rw [← h1, ← h2]
    have hrest := ih (acc ++ [(f.name, ⟨mk_qualified_type_reference f.field_type s,
        f.description, f.deprecated⟩)])
      (List.nodup_cons.1 (by simpa using hnd)).2
      (by
        intro g hg
        rw [keysOf_append]
        intro hmem
        rcases List.mem_append.1 hmem with hmem | hmem
        · exact hfresh g (List.mem_cons_of_mem f hg) hmem
        · have : g.name = f.name := by simpa [keysOf] using hmem
          have hfn : f.name ∉ rest.map (·.name) := (List.nodup_cons.1 (by simpa using hnd)).1
          exact hfn (this ▸ List.mem_map_of_mem (·.name) hg))
    simp only [resolveFieldsLoop, resolve_field, hins, hrest, resolvedFieldsOf,
      List.map_cons]
    simp

/-- The field loop fails at the first repeated field name, before any
accumulator mutation. -/
theorem resolveFieldsLoop_err (s : String) (qtn : Qualified) :
    ∀ (F₁ : List FieldDefinitionInput) (f : FieldDefinitionInput)
      (F₂ : List FieldDefinitionInput) (acc : List (String × FieldDefinition)),
    (∀ g ∈ F₁, g.name ∉ keysOf acc) → (F₁.map (·.name)).Nodup →
    f.name ∈ keysOf acc ++ F₁.map (·.name) →
    resolveFieldsLoop s qtn (F₁ ++ f :: F₂) acc =
      .error (.DuplicateFieldDefinition qtn f.name) := by
  intro F₁
  induction F₁ with
  | nil =>
    intro f F₂ acc _ _ hmem
    have hmem' : f.name ∈ keysOf acc := by simpa using hmem
    obtain ⟨v, hv⟩ : ∃ v, lookupKey acc f.name = some v := by
      have := (lookupKey_isSome_iff acc f.name).2 hmem'
      exact Option.isSome_iff_exists.1 this
    rcases hP : insertLookup acc f.name
        ⟨mk_qualified_type_reference f.field_type s, f.description, f.deprecated⟩ with ⟨o, l⟩
    have ho : o = some v := by
      have h1 := insertLookup_fst acc f.name
        (⟨mk_qualified_type_reference f.field_type s, f.description, f.deprecated⟩ :
          FieldDefinition)
      rw [hP, hv] at h1
      exact h1
    subst ho
    simp only [List.nil_append, resolveFieldsLoop, resolve_field, hP]
  | cons g F₁' ih =>
    intro f F₂ acc hfresh hnd hmem
    have hg : g.name ∉ keysOf acc := hfresh g (List.mem_cons_self g F₁')
    have hlk : lookupKey acc g.name = none := (lookupKey_eq_none_iff acc g.name).2 hg
    have hins : insertLookup acc g.name
        ⟨mk_qualified_type_reference g.field_type s, g.description, g.deprecated⟩ =
        (none, acc ++ [(g.name, ⟨mk_qualified_type_reference g.field_type s,
          g.description, g.deprecated⟩)]) := by
      have h1 := insertLookup_fst acc g.name
        (⟨mk_qualified_type_reference g.field_type s, g.description, g.deprecated⟩ :
          FieldDefinition)
      rw [hlk] at h1
      have h2 := insertLookup_snd_of_none acc g.name
        (⟨mk_qualified_type_reference g.field_type s, g.description, g.deprecated⟩ :
          FieldDefinition) hlk
      rw [← h1, ← h2]
    have hgn : g.name ∉ F₁'.map (·.name) := (List.nodup_cons.1 (by simpa using hnd)).1
    have hrec := ih f F₂ (acc ++ [(g.name, ⟨mk_qualified_type_reference g.field_type s,
        g.description, g.deprecated⟩)])
      (by
        intro g' hg'
        rw [keysOf_append]
        intro hmem'
        rcases List.mem_append.1 hmem' with hmem' | hmem'
        · exact hfresh g' (List.mem_cons_of_mem g hg') hmem'
        · have : g'.name = g.name := by simpa [keysOf] using hmem'
          exact hgn (this ▸ List.mem_map_of_mem (·.name) hg'))
      (List.nodup_cons.1 (by simpa using hnd)).2
      (by
        rw [keysOf_append, List.append_assoc]
        exact hmem)
    simp only [List.cons_append, resolveFieldsLoop, resolve_field, hins]
    exact hrec

/-- C5: an object type declaring two fields with the same name fails with
duplicate-field-definition carrying the type's qualified name and the
repeated name, whatever the two fields' declared types; the error is raised
at the first repetition, before any accumulator mutation. -/
theorem claim_C5 (d : ObjectTypeV1) (accs : Accs) (qtn : Qualified) (s : String)
    (F₁ : List FieldDefinitionInput) (f : FieldDefinitionInput)
    (F₂ : List FieldDefinitionInput)
    (hsplit : d.fields = F₁ ++ f :: F₂)
    (hnd : (F₁.map (·.name)).Nodup)
    (hmem : f.name ∈ F₁.map (·.name)) :
    resolve_object_type d accs qtn s = .error (.DuplicateFieldDefinition qtn f.name, accs) := by
  have herr : resolveFieldsLoop s qtn d.fields [] =
      .error (.DuplicateFieldDefinition qtn f.name) := by
    rw [hsplit]
    exact resolveFieldsLoop_err s qtn F₁ f F₂ [] (by simp [keysOf]) hnd
      (by simpa [keysOf] using hmem)
  simp only [resolve_object_type, herr]

/-- Witness for C5: fields a : Int and a : String repeat the name a. -/
theorem claim_C5_witness :
    (exDupFieldType.fields = [⟨"a", "Int", none, none⟩] ++ ⟨"a", "String", none, none⟩ :: [] ∧
      "a" ∈ ([⟨"a", "Int", none, none⟩] : List FieldDefinitionInput).map (·.name)) ∧
    resolve_object_type exDupFieldType ⟨[], [], []⟩ ⟨"app", "User"⟩ "app" =
      .error (.DuplicateFieldDefinition ⟨"app", "User"⟩ "a", ⟨[], [], []⟩) :=
  ⟨⟨by decide, by decide⟩,
    claim_C5 exDupFieldType ⟨[], [], []⟩ ⟨"app", "User"⟩ "app"
      [⟨"a", "Int", none, none⟩] ⟨"a", "String", none, none⟩ [] (by decide) (by decide)
      (by decide)⟩

/-- Either every element of a list satisfies a decidable predicate, or the
list splits at the first violation. -/
theorem list_first_violation {α : Type} (P : α → Prop) [DecidablePred P] :
    ∀ l : List α, (∀ x ∈ l, P x) ∨
      ∃ l₁ x l₂, l = l₁ ++ x :: l₂ ∧ (∀ y ∈ l₁, P y) ∧ ¬ P x := by
  intro l
  induction l with
  | nil => left; intro x hx; cases hx
  | cons a l ih =>
    by_cases ha : P a
    · rcases ih with hall | ⟨l₁, x, l₂, hsplit, hgood, hbad⟩
      · left
        intro x hx
        rcases List.mem_cons.1 hx with rfl | hx2
        · exact ha
        · exact hall x hx2
      · right
        refine ⟨a :: l₁, x, l₂, by rw [hsplit, List.cons_append], ?_, hbad⟩
        intro y hy
        rcases List.mem_cons.1 hy with rfl | hy2
        · exact ha
        · exact hgood y hy2
    · right
      exact ⟨[], a, l, rfl, fun y hy => absurd hy (List.not_mem_nil y), ha⟩

theorem checkGlobalIdFieldsLoop_ok (qtn : Qualified)
    (rf : List (String × FieldDefinition)) :
    ∀ (G : List String) (acc : List String),
    (∀ x ∈ G, containsKey rf x = true) →
    checkGlobalIdFieldsLoop qtn rf G acc = .ok (acc ++ G) := by
  intro G
  induction G with
  | nil => intro acc _; simp [checkGlobalIdFieldsLoop]
  | cons g G' ih =>
    intro acc hall
    have hg : containsKey rf g = true := hall g (List.mem_cons_self g G')
    simp only [checkGlobalIdFieldsLoop, hg, if_true]
    rw [ih (acc ++ [g]) (fun x hx => hall x (List.mem_cons_of_mem g hx))]
    simp

theorem checkGlobalIdFieldsLoop_err (qtn : Qualified)
    (rf : List (String × FieldDefinition)) :
    ∀ (G₁ : List String) (g : String) (G₂ : List String) (acc : List String),
    (∀ x ∈ G₁, containsKey rf x = true) → containsKey rf g = false →
    checkGlobalIdFieldsLoop qtn rf (G₁ ++ g :: G₂) acc =
      .error (.UnknownFieldInGlobalId g qtn) := by
  intro G₁
  induction G₁ with
  | nil =>
    intro g G₂ acc _ hbad
    simp [checkGlobalIdFieldsLoop, hbad]
  | cons x G₁' ih =>
    intro g G₂ acc hgood hbad
    have hx : containsKey rf x = true := hgood x (List.mem_cons_self x G₁')
    simp only [List.cons_append, checkGlobalIdFieldsLoop, hx, if_true]
    exact ih g G₂ (acc ++ [x]) (fun y hy => hgood y (List.mem_cons_of_mem x hy)) hbad

theorem containsKey_resolvedFieldsOf (s : String) (fs : List FieldDefinitionInput)
    (x : String) : containsKey (resolvedFieldsOf s fs) x = true ↔ x ∈ fs.map (·.name) := by
  rw [containsKey_iff, keysOf_resolvedFieldsOf]

theorem containsKey_resolvedFieldsOf_false (s : String) (fs : List FieldDefinitionInput)
    (x : String) (h : x ∉ fs.map (·.name)) :
    containsKey (resolvedFieldsOf s fs) x = false := by
  cases hc : containsKey (resolvedFieldsOf s fs) x with
  | false => rfl
  | true => exact absurd ((containsKey_resolvedFieldsOf s fs x).1 hc) h

/-- C6: for an object type with a declared non-empty identity group (and
well-formed field declarations, so that the resolved field map exists): a
literal field id makes resolution fail with id-conflicts-with-identity; an
absent identity field makes it fail with unknown-identity-field naming the
first absent one (the identity index having been touched first); and on any
success the resolved identity sequence equals the declared list in order. -/
theorem claim_C6 (d : ObjectTypeV1) (accs : Accs) (qtn : Qualified) (s : String)
    (gif : List String)
    (hnodup : (fieldNames d).Nodup)
    (hgif : d.global_id_fields = some gif)
    (hne : gif ≠ []) :
    ("id" ∈ fieldNames d →
      resolve_object_type d accs qtn s = .error (.IdFieldConflictingGlobalId qtn, accs)) ∧
    (∀ G₁ g G₂, gif = G₁ ++ g :: G₂ → "id" ∉ fieldNames d →
      (∀ x ∈ G₁, x ∈ fieldNames d) → g ∉ fieldNames d →
      resolve_object_type d accs qtn s = .error (.UnknownFieldInGlobalId g qtn,
        { accs with global_id_enabled_types :=
            (insertLookup accs.global_id_enabled_types qtn []).2 })) ∧
    (∀ repr a', resolve_object_type d accs qtn s = .ok (repr, a') →
      repr.global_id_fields = gif) := by
  have hfok : resolveFieldsLoop s qtn d.fields [] = .ok (resolvedFieldsOf s d.fields) :=
    resolveFieldsLoop_ok s qtn d.fields [] hnodup (fun f _ => by simp [keysOf])
  have hne' : gif.isEmpty = false := by
    cases gif with
    | nil => exact absurd rfl hne
    | cons x xs => rfl
  have parta : "id" ∈ fieldNames d →
      resolve_object_type d accs qtn s = .error (.IdFieldConflictingGlobalId qtn, accs) := by
    intro hid
    have hc : containsKey (resolvedFieldsOf s d.fields) "id" = true :=
      (containsKey_resolvedFieldsOf s d.fields "id").2 hid
    simp only [resolve_object_type, hfok, resolveGlobalIdStage, hgif, hne', hc,
      Bool.false_eq_true, if_false, if_true]
  have partb : ∀ G₁ g G₂, gif = G₁ ++ g :: G₂ → "id" ∉ fieldNames d →
      (∀ x ∈ G₁, x ∈ fieldNames d) → g ∉ fieldNames d →
      resolve_object_type d accs qtn s = .error (.UnknownFieldInGlobalId g qtn,
        { accs with global_id_enabled_types :=
            (insertLookup accs.global_id_enabled_types qtn []).2 }) := by
    intro G₁ g G₂ hsplit hid hgood hbad
    have hc : containsKey (resolvedFieldsOf s d.fields) "id" = false :=
      containsKey_resolvedFieldsOf_false s d.fields "id" hid
    have hloop : checkGlobalIdFieldsLoop qtn (resolvedFieldsOf s d.fields) gif [] =
        .error (.UnknownFieldInGlobalId g qtn) := by
      rw [hsplit]
      exact checkGlobalIdFieldsLoop_err qtn (resolvedFieldsOf s d.fields) G₁ g G₂ []
        (fun x hx => (containsKey_resolvedFieldsOf s d.fields x).2 (hgood x hx))
        (containsKey_resolvedFieldsOf_false s d.fields g hbad)
    simp only [resolve_object_type, hfok, resolveGlobalIdStage, hgif, hne', hc,
      Bool.false_eq_true, if_false, hloop]
  refine ⟨parta, partb, ?_⟩
  intro repr a' h
  by_cases hid : "id" ∈ fieldNames d
  · rw [parta hid] at h
    cases h
  · rcases list_first_violation (fun x => x ∈ fieldNames d) gif with hall | ⟨G₁, g, G₂, hsp, hgood, hbad⟩
    · have hc : containsKey (resolvedFieldsOf s d.fields) "id" = false :=
        containsKey_resolvedFieldsOf_false s d.fields "id" hid
      have hloop : checkGlobalIdFieldsLoop qtn (resolvedFieldsOf s d.fields) gif [] =
          .ok gif := by
        rw [checkGlobalIdFieldsLoop_ok qtn (resolvedFieldsOf s d.fields) gif []
          (fun x hx => (containsKey_resolvedFieldsOf s d.fields x).2 (hall x hx))]
        simp
      simp only [resolve_object_type, hfok, resolveGlobalIdStage, hgif, hne', hc,
        Bool.false_eq_true, if_false, hloop] at h
      split at h
      · exact absurd h (by simp)
      · split at h
        · exact absurd h (by simp)
        · split at h
          · exact absurd h (by simp)
          · simp only [Except.ok.injEq, Prod.mk.injEq] at h
            rw [← h.1]
    · rw [partb G₁ g G₂ hsp hid hgood hbad] at h
      cases h

/-- Witness for C6: fields {name}, identity group [age] where age is absent;
the theorem is applied at this input, its failure branch naming age. -/
theorem claim_C6_witness :
    ((fieldNames exUnknownIdType).Nodup ∧
      exUnknownIdType.global_id_fields = some ["age"] ∧ ("age" :: []) ≠ []) ∧
    resolve_object_type exUnknownIdType ⟨[], [], []⟩ ⟨"app", "User"⟩ "app" =
      .error (.UnknownFieldInGlobalId "age" ⟨"app", "User"⟩,
        ⟨[], [(⟨"app", "User"⟩, [])], []⟩) :=
  ⟨⟨by decide, by decide, by decide⟩, by
    have h := (claim_C6 exUnknownIdType ⟨[], [], []⟩ ⟨"app", "User"⟩ "app" ["age"]
      (by decide) (by decide) (by decide)).2.1 [] "age" [] rfl (by decide)
      (fun x hx => absurd hx (List.not_mem_nil x)) (by decide)
    exact h⟩

/-! ### Lemmas about the federation stage -/

theorem resolveFederationKeyFields_ok (qtn : Qualified)
    (rf : List (String × FieldDefinition)) :
    ∀ (fs : List String) (acc : List String),
    (∀ f ∈ fs, containsKey rf f = true) →
    resolveFederationKeyFields qtn rf fs acc = .ok (acc ++ fs) := by
  intro fs
  induction fs with
  | nil => intro acc _; simp [resolveFederationKeyFields]
  | cons f fs' ih =>
    intro acc hall
    have hf : containsKey rf f = true := hall f (List.mem_cons_self f fs')
    simp only [resolveFederationKeyFields, hf, if_true]
    rw [ih (acc ++ [f]) (fun x hx => hall x (List.mem_cons_of_mem f hx))]
    simp

theorem resolveFederationKeyFields_err (qtn : Qualified)
    (rf : List (String × FieldDefinition)) :
    ∀ (F₁ : List String) (f : String) (F₂ : List String) (acc : List String),
    (∀ g ∈ F₁, containsKey rf g = true) → containsKey rf f = false →
    resolveFederationKeyFields qtn rf (F₁ ++ f :: F₂) acc =
      .error (.UnknownFieldInApolloFederationKey f qtn) := by
  intro F₁
  induction F₁ with
  | nil =>
    intro f F₂ acc _ hbad
    simp [resolveFederationKeyFields, hbad]
  | cons x F₁' ih =>
    intro f F₂ acc hgood hbad
    have hx : containsKey rf x = true := hgood x (List.mem_cons_self x F₁')
    simp only [List.cons_append, resolveFederationKeyFields, hx, if_true]
    exact ih f F₂ (acc ++ [x]) (fun y hy => hgood y (List.mem_cons_of_mem x hy)) hbad

/-- When every key group is non-empty and all its fields resolve, the key
loop succeeds. -/
theorem resolveFederationKeysLoop_ok (qtn : Qualified)
    (rf : List (String × FieldDefinition)) :
    ∀ (keys : List ApolloFederationObjectKey) (acc : List ResolvedApolloFederationObjectKey),
    (∀ key ∈ keys, key.fields ≠ [] ∧ ∀ f ∈ key.fields, containsKey rf f = true) →
    ∃ out, resolveFederationKeysLoop qtn rf keys acc = .ok out ∧
      out.length = acc.length + keys.length := by
  intro keys
  induction keys with
  | nil => intro acc _; exact ⟨acc, rfl, by simp⟩
  | cons key keys' ih =>
    intro acc hall
    obtain ⟨hne, hfs⟩ := hall key (List.mem_cons_self key keys')
    have hko : resolveFederationKeyFields qtn rf key.fields [] = .ok key.fields := by
      rw [resolveFederationKeyFields_ok qtn rf key.fields [] hfs]
      simp
    cases hkf : key.fields with
    | nil => exact absurd hkf hne
    | cons kf kfs =>
      obtain ⟨out, hout, hlen⟩ := ih (acc ++ [⟨kf :: kfs⟩])
        (fun k hk => hall k (List.mem_cons_of_mem key hk))
      refine ⟨out, ?_, ?_⟩
      · rw [hkf] at hko
        simp only [resolveFederationKeysLoop, hko, hkf]
        exact hout
      · rw [hlen]
        simp
        omega

/-- When some key group is empty or has an unresolved field, the key loop
fails (with the error decided by the first bad key). -/
theorem resolveFederationKeysLoop_err (qtn : Qualified)
    (rf : List (String × FieldDefinition)) :
    ∀ (keys : List ApolloFederationObjectKey) (acc : List ResolvedApolloFederationObjectKey),
    ¬ (∀ key ∈ keys, key.fields ≠ [] ∧ ∀ f ∈ key.fields, containsKey rf f = true) →
    ∃ e, resolveFederationKeysLoop qtn rf keys acc = .error e := by
  intro keys
  induction keys with
  | nil => intro acc hbad; exact absurd (fun key hk => absurd hk (List.not_mem_nil key)) hbad
  | cons key keys' ih =>
    intro acc hbad
    by_cases hk : key.fields ≠ [] ∧ ∀ f ∈ key.fields, containsKey rf f = true
    · obtain ⟨hne, hfs⟩ := hk
      have hko : resolveFederationKeyFields qtn rf key.fields [] = .ok key.fields := by
        rw [resolveFederationKeyFields_ok qtn rf key.fields [] hfs]
        simp
      cases hkf : key.fields with
      | nil => exact absurd hkf hne
      | cons kf kfs =>
        have hbad' : ¬ (∀ k ∈ keys', k.fields ≠ [] ∧ ∀ f ∈ k.fields, containsKey rf f = true) := by
          intro hall
          apply hbad
          intro k hkm
          rcases List.mem_cons.1 hkm with rfl | hkm2
          · exact ⟨hne, hfs⟩
          · exact hall k hkm2
        obtain ⟨e, he⟩ := ih (acc ++ [⟨kf :: kfs⟩]) hbad'
        refine ⟨e, ?_⟩
        rw [hkf] at hko
        simp only [resolveFederationKeysLoop, hko, hkf]
        exact he
    · rcases list_first_violation (fun f => containsKey rf f = true) key.fields with
        hall | ⟨F₁, f, F₂, hsp, hgood, hbadf⟩
      · -- all fields resolve, so the key must be empty
        have hkf : key.fields = [] := by
          by_contra hne
          exact hk ⟨hne, hall⟩
        refine ⟨.EmptyFieldsInApolloFederationConfigForObject qtn, ?_⟩
        have hko : resolveFederationKeyFields qtn rf key.fields [] = .ok [] := by
          rw [hkf]; rfl
        simp only [resolveFederationKeysLoop, hko]
      · have hcf : containsKey rf f = false := by
          cases hc : containsKey rf f with
          | false => rfl
          | true => exact absurd hc hbadf
        refine ⟨.UnknownFieldInApolloFederationKey f qtn, ?_⟩
        have hko : resolveFederationKeyFields qtn rf key.fields [] =
            .error (.UnknownFieldInApolloFederationKey f qtn) := by
          rw [hsp]
          exact resolveFederationKeyFields_err qtn rf F₁ f F₂ [] hgood hcf
        simp only [resolveFederationKeysLoop, hko]

theorem optTranspose_mk (o : Option String) : optTranspose (o.map mk_name) = .ok o := by
  cases o <;> rfl

theorem list_all_congr {α : Type} (p q : α → Bool) :
    ∀ l : List α, (∀ x ∈ l, p x = q x) → l.all p = l.all q := by
  intro l
  induction l with
  | nil => intro _; rfl
  | cons a l ih =>
    intro h
    simp only [List.all_cons]
    rw [h a (List.mem_cons_self a l), ih (fun x hx => h x (List.mem_cons_of_mem a hx))]

/-- The stage-level registration condition, in universally quantified form. -/
theorem fedRegistersOn_iff (g : ObjectTypeGraphQLConfig) (af : ApolloFederationObjectConfig)
    (rf : List (String × FieldDefinition)) (haf : g.apollo_federation = some af) :
    fedRegistersOn (some g) rf = true ↔
      ∀ key ∈ af.keys, key.fields ≠ [] ∧ ∀ f ∈ key.fields, containsKey rf f = true := by
  unfold fedRegistersOn
  simp only [haf, List.all_eq_true, Bool.and_eq_true, Bool.not_eq_true']
  constructor
  · intro h key hk
    obtain ⟨h1, h2⟩ := h key hk
    exact ⟨by simpa using h1, h2⟩
  · intro h key hk
    obtain ⟨h1, h2⟩ := h key hk
    exact ⟨by simpa using h1, h2⟩

/-- The declaration-level registration condition equals the stage-level one
evaluated at the declaration's resolved field map. -/
theorem federationRegisters_eq (d : ObjectTypeV1) (s : String) :
    federationRegisters d = fedRegistersOn d.graphql (resolvedFieldsOf s d.fields) := by
  have hpt : ∀ f : String, (fieldNames d).contains f =
      containsKey (resolvedFieldsOf s d.fields) f := by
    intro f
    cases hc : containsKey (resolvedFieldsOf s d.fields) f with
    | true =>
      have := (containsKey_resolvedFieldsOf s d.fields f).1 hc
      simpa [fieldNames] using this
    | false =>
      have : f ∉ d.fields.map (·.name) := by
        intro hm
        rw [(containsKey_resolvedFieldsOf s d.fields f).2 hm] at hc
        cases hc
      simpa [fieldNames] using this
  rcases hg : d.graphql with _ | g
  · unfold federationRegisters fedRegistersOn
    simp only [hg]
  · rcases haf : g.apollo_federation with _ | af
    · unfold federationRegisters fedRegistersOn
      simp only [hg, haf]
    · unfold federationRegisters fedRegistersOn
      simp only [hg, haf]
      apply list_all_congr
      intro key _
      congr 1
      apply list_all_congr
      intro f _
      exact hpt f

/-- The identity stage succeeds when its checks pass, touching neither the
federation index nor the claimed GraphQL names. -/
theorem resolveGlobalIdStage_ok (d : ObjectTypeV1) (accs : Accs) (qtn : Qualified)
    (s : String)
    (hIFR : identityFieldsResolve d = true) (hNIC : noIdConflict d = true) :
    ∃ rgif accsA,
      resolveGlobalIdStage d.global_id_fields (resolvedFieldsOf s d.fields) accs qtn =
        .ok (rgif, accsA) ∧
      accsA.apollo_federation_entity_enabled_types =
        accs.apollo_federation_entity_enabled_types ∧
      accsA.graphql_types = accs.graphql_types := by
  rcases hg : d.global_id_fields with _ | gif
  · exact ⟨[], accs, by simp only [resolveGlobalIdStage], rfl, rfl⟩
  · have hall : ∀ x ∈ gif, containsKey (resolvedFieldsOf s d.fields) x = true := by
      intro x hx
      rw [containsKey_resolvedFieldsOf]
      have h := hIFR
      unfold identityFieldsResolve at h
      rw [hg] at h
      simp only [List.all_eq_true] at h
      have := h x hx
      simpa [fieldNames] using this
    have hloop : checkGlobalIdFieldsLoop qtn (resolvedFieldsOf s d.fields) gif [] =
        .ok gif := by
      rw [checkGlobalIdFieldsLoop_ok qtn (resolvedFieldsOf s d.fields) gif [] hall]
      simp
    by_cases hemp : gif.isEmpty
    · refine ⟨gif, accs, ?_, rfl, rfl⟩
      simp only [resolveGlobalIdStage, hemp, if_true, hloop]
    · have hemp' : gif.isEmpty = false := by
        cases he : gif.isEmpty with
        | true => exact absurd he hemp
        | false => rfl
      have hcid : containsKey (resolvedFieldsOf s d.fields) "id" = false := by
        have h := hNIC
        unfold noIdConflict at h
        rw [hg, Bool.or_eq_true] at h
        rcases h with h' | h'
        · exact absurd h' hemp
        · rw [Bool.not_eq_true'] at h'
          apply containsKey_resolvedFieldsOf_false
          intro hm
          have hcontains : (fieldNames d).contains "id" = true := by
            simpa [fieldNames] using hm
          rw [hcontains] at h'
          cases h'
      refine ⟨gif, { accs with global_id_enabled_types :=
        (insertLookup accs.global_id_enabled_types qtn []).2 }, ?_, rfl, rfl⟩
      simp only [resolveGlobalIdStage, hemp', Bool.false_eq_true, if_false, hcid, hloop]

/-- Either a list's image under a key function is duplicate-free, or the
list splits at the first element whose key already occurred. -/
theorem list_first_dup {α β : Type} [DecidableEq β] (f : α → β) :
    ∀ (l pre : List α), (pre.map f).Nodup →
    ((pre ++ l).map f).Nodup ∨
      ∃ l₁ x l₂, pre ++ l = l₁ ++ x :: l₂ ∧ (l₁.map f).Nodup ∧ f x ∈ l₁.map f := by
  intro l
  induction l with
  | nil =>
    intro pre h
    left
    simpa using h
  | cons a l' ih =>
    intro pre h
    by_cases ha : f a ∈ pre.map f
    · right
      exact ⟨pre, a, l', rfl, h, ha⟩
    · have h' : ((pre ++ [a]).map f).Nodup := by
        rw [List.map_append, List.nodup_append]
        refine ⟨h, by simp, ?_⟩
        intro x hx hx2
        rw [List.map_singleton, List.mem_singleton] at hx2
        subst hx2
        exact ha hx
      rcases ih (pre ++ [a]) h' with hl | ⟨l₁, x, l₂, hsp, hnd, hmem⟩
      · left
        rw [List.append_assoc] at hl
        simpa using hl
      · right
        refine ⟨l₁, x, l₂, ?_, hnd, hmem⟩
        rw [← hsp, List.append_assoc]
        simp

/-- When the identity-stage checks fail, the stage errors and hands back an
accumulator whose federation-enabled index is untouched. -/
theorem resolveGlobalIdStage_err (d : ObjectTypeV1) (accs : Accs) (qtn : Qualified)
    (s : String) (hbad : identityOk d = false) :
    ∃ e a', resolveGlobalIdStage d.global_id_fields (resolvedFieldsOf s d.fields) accs qtn =
        .error (e, a') ∧
      a'.apollo_federation_entity_enabled_types =
        accs.apollo_federation_entity_enabled_types := by
  rcases hg : d.global_id_fields with _ | gif
  · exfalso
    unfold identityOk identityFieldsResolve noIdConflict at hbad
    simp [hg] at hbad
  · cases hcid : (fieldNames d).contains "id" with
    | true =>
      by_cases hemp : gif.isEmpty
      · exfalso
        have hnil : gif = [] := by simpa [List.isEmpty_iff] using hemp
        subst hnil
        unfold identityOk identityFieldsResolve noIdConflict at hbad
        simp [hg] at hbad
      · have hemp' : gif.isEmpty = false := by
          cases he : gif.isEmpty with
          | false => rfl
          | true => exact absurd he hemp
        have hck : containsKey (resolvedFieldsOf s d.fields) "id" = true := by
          rw [containsKey_resolvedFieldsOf]
          simpa [fieldNames] using hcid
        refine ⟨.IdFieldConflictingGlobalId qtn, accs, ?_, rfl⟩
        simp only [resolveGlobalIdStage, hg, hemp', Bool.false_eq_true, if_false, hck,
          if_true]
    | false =>
      have hA : identityFieldsResolve d = false := by
        unfold identityOk at hbad
        cases hAc : identityFieldsResolve d with
        | false => rfl
        | true =>
          exfalso
          rw [hAc] at hbad
          unfold noIdConflict at hbad
          simp only [hg] at hbad
          have hidm : "id" ∉ fieldNames d := by
            intro hm
            have hc : (fieldNames d).contains "id" = true := by simpa using hm
            rw [hc] at hcid
            cases hcid
          simp [hidm] at hbad
      unfold identityFieldsResolve at hA
      simp only [hg] at hA
      rcases list_first_violation (fun x => x ∈ fieldNames d) gif with
        hall | ⟨G₁, g, G₂, hsp, hgood, hbadg⟩
      · exfalso
        have hT : gif.all (fieldNames d).contains = true := by
          rw [List.all_eq_true]
          intro x hx
          simpa using hall x hx
        rw [hT] at hA
        cases hA
      · have hemp' : gif.isEmpty = false := by
          cases hge : gif with
          | nil =>
            rw [hge] at hsp
            exact absurd hsp (by simp)
          | cons y ys => rfl
        have hck : containsKey (resolvedFieldsOf s d.fields) "id" = false := by
          apply containsKey_resolvedFieldsOf_false
          intro hm
          have hc : (fieldNames d).contains "id" = true := by simpa [fieldNames] using hm
          rw [hc] at hcid
          cases hcid
        have hloop : checkGlobalIdFieldsLoop qtn (resolvedFieldsOf s d.fields) gif [] =
            .error (.UnknownFieldInGlobalId g qtn) := by
          rw [hsp]
          exact checkGlobalIdFieldsLoop_err qtn _ G₁ g G₂ []
            (fun x hx => (containsKey_resolvedFieldsOf s d.fields x).2 (hgood x hx))
            (containsKey_resolvedFieldsOf_false s d.fields g hbadg)
        refine ⟨.UnknownFieldInGlobalId g qtn,
          { accs with global_id_enabled_types :=
              (insertLookup accs.global_id_enabled_types qtn []).2 },
          ?_, rfl⟩
        simp only [resolveGlobalIdStage, hg, hemp', Bool.false_eq_true, if_false, hck,
          hloop]

/-- Whatever the outcome of the GraphQL stage, the federation-enabled index
it hands back is the insert exactly when the stage-level registration
condition holds, and is untouched otherwise. -/
theorem resolveGraphqlStage_apollo (graphql : Option ObjectTypeGraphQLConfig)
    (rf : List (String × FieldDefinition)) (a1 : Accs) (qtn : Qualified) :
    (resultAccs (resolveGraphqlStage graphql rf a1 qtn)).apollo_federation_entity_enabled_types =
      if fedRegistersOn graphql rf then
        (insertLookup a1.apollo_federation_entity_enabled_types qtn none).2
      else a1.apollo_federation_entity_enabled_types := by
  cases graphql with
  | none => rfl
  | some g =>
    cases haf : g.apollo_federation with
    | none =>
      have hreg : fedRegistersOn (some g) rf = false := by
        unfold fedRegistersOn; simp only [haf]
      simp only [resolveGraphqlStage, optTranspose_mk, haf, hreg, Bool.false_eq_true,
        if_false, resultAccs]
    | some af =>
      by_cases hgood : ∀ key ∈ af.keys, key.fields ≠ [] ∧
          ∀ f ∈ key.fields, containsKey rf f = true
      · have hreg : fedRegistersOn (some g) rf = true :=
          (fedRegistersOn_iff g af rf haf).2 hgood
        obtain ⟨out, hout, _⟩ := resolveFederationKeysLoop_ok qtn rf af.keys [] hgood
        cases out with
        | nil =>
          simp only [resolveGraphqlStage, optTranspose_mk, haf, hout, hreg, if_true,
            resultAccs]
        | cons rk rks =>
          simp only [resolveGraphqlStage, optTranspose_mk, haf, hout, hreg, if_true,
            resultAccs]
      · have hreg : fedRegistersOn (some g) rf = false := by
          cases hr : fedRegistersOn (some g) rf with
          | false => rfl
          | true => exact absurd ((fedRegistersOn_iff g af rf haf).1 hr) hgood
        obtain ⟨e, he⟩ := resolveFederationKeysLoop_err qtn rf af.keys [] hgood
        simp only [resolveGraphqlStage, optTranspose_mk, haf, he, hreg, Bool.false_eq_true,
          if_false, resultAccs]

/-- Counterexample to C3 as stated: a declared federation configuration with
an empty key-group sequence fails with empty-federation-config, yet the
federation-enabled index passed in empty comes back with the type
registered. -/
theorem claim_C3_counterexample :
    resolve_object_type exEmptyFedType ⟨[], [], []⟩ ⟨"app", "User"⟩ "app" =
      .error (.EmptyKeysInApolloFederationConfigForObject ⟨"app", "User"⟩,
        ⟨[], [], [(⟨"app", "User"⟩, none)]⟩) ∧
    ([(⟨"app", "User"⟩, none)] : List (Qualified × Option Qualified)) ≠ [] :=
  ⟨by rfl, by decide⟩

/-- Under duplicate-free fields and passing identity checks, the
federation-enabled index handed back is the insert exactly when the
registration condition holds. -/
theorem resolve_object_type_apollo (d : ObjectTypeV1) (accs : Accs) (qtn : Qualified)
    (s : String)
    (h1 : (fieldNames d).Nodup) (h2 : identityOk d = true) :
    (resultAccs (resolve_object_type d accs qtn s)).apollo_federation_entity_enabled_types =
      if federationRegisters d then
        (insertLookup accs.apollo_federation_entity_enabled_types qtn none).2
      else accs.apollo_federation_entity_enabled_types := by
  have hfok : resolveFieldsLoop s qtn d.fields [] = .ok (resolvedFieldsOf s d.fields) :=
    resolveFieldsLoop_ok s qtn d.fields [] h1 (fun f _ => by simp [keysOf])
  have h2' : identityFieldsResolve d = true ∧ noIdConflict d = true := by
    have h := h2
    unfold identityOk at h
    rw [Bool.and_eq_true] at h
    exact h
  obtain ⟨hIFR, hNIC⟩ := h2'
  -- the identity stage succeeds and leaves the federation index untouched
  obtain ⟨rgif, accsA, hid, happ, _⟩ := resolveGlobalIdStage_ok d accs qtn s hIFR hNIC
  rw [federationRegisters_eq d s, ← happ]
  have hmain := resolveGraphqlStage_apollo d.graphql (resolvedFieldsOf s d.fields) accsA qtn
  rw [← hmain]
  simp only [resolve_object_type, hfok, hid]
  rcases hstage : resolveGraphqlStage d.graphql (resolvedFieldsOf s d.fields) accsA qtn with
    ⟨e, a'⟩ | ⟨⟨gtn, gitn, afc⟩, a'⟩
  · simp only [resultAccs]
  · rcases hs1 : store_new_graphql_type a'.graphql_types gtn with e1 | gs1
    · simp only [hs1, resultAccs]
    · rcases hs2 : store_new_graphql_type gs1 gitn with e2 | gs2
      · simp only [hs1, hs2, resultAccs]
      · simp only [hs1, hs2, resultAccs]

/-- C3 (amended): the federation-enabled index gains the (type, None) entry
exactly when the declaration reaches the federation block and it validates:
the field declarations are duplicate-free, the identity-stage checks pass,
and a federation configuration is declared in which every key group is
non-empty with all of its fields resolving — regardless of whether the
remaining resolution succeeds (the entry is added even when the key-group
sequence is empty, with empty-federation-config returned after registration,
and even when a later GraphQL name conflict fails the type); in every other
outcome, unknown-federation-field and empty-federation-key included, the
index is returned unchanged. -/
theorem claim_C3 (d : ObjectTypeV1) (accs : Accs) (qtn : Qualified) (s : String) :
    (resultAccs (resolve_object_type d accs qtn s)).apollo_federation_entity_enabled_types =
      if (fieldNames d).Nodup ∧ identityOk d = true ∧ federationRegisters d = true then
        (insertLookup accs.apollo_federation_entity_enabled_types qtn none).2
      else accs.apollo_federation_entity_enabled_types := by
  by_cases h1 : (fieldNames d).Nodup
  · by_cases h2 : identityOk d = true
    · rw [resolve_object_type_apollo d accs qtn s h1 h2]
      cases hreg : federationRegisters d with
      | true => simp [h1, h2, hreg]
      | false => simp [h1, h2, hreg]
    · have h2' : identityOk d = false := by
        cases hh : identityOk d with
        | false => rfl
        | true => exact absurd hh h2
      have hfok : resolveFieldsLoop s qtn d.fields [] = .ok (resolvedFieldsOf s d.fields) :=
        resolveFieldsLoop_ok s qtn d.fields [] h1 (fun f _ => by simp [keysOf])
      obtain ⟨e, a', hstage, happ⟩ := resolveGlobalIdStage_err d accs qtn s h2'
      rw [if_neg (by simp [h2])]
      simp only [resolve_object_type, hfok, hstage, resultAccs]
      exact happ
  · rcases list_first_dup (fun fdef : FieldDefinitionInput => fdef.name) d.fields []
        (by simp) with hnd | ⟨F₁, fdef, F₂, hsp, hndF, hmem⟩
    · exact absurd (by simpa [fieldNames] using hnd) h1
    · have herr : resolveFieldsLoop s qtn d.fields [] =
          .error (.DuplicateFieldDefinition qtn fdef.name) := by
        rw [show d.fields = F₁ ++ fdef :: F₂ from by simpa using hsp]
        exact resolveFieldsLoop_err s qtn F₁ fdef F₂ [] (by simp [keysOf]) hndF
          (by simpa [keysOf] using hmem)
      rw [if_neg (by simp [h1])]
      simp only [resolve_object_type, herr, resultAccs]

/-- The GraphQL stage succeeds when every federation key group is non-empty
with resolving fields, handing back the declared names with the claimed-name
set untouched. -/
theorem resolveGraphqlStage_ok (d : ObjectTypeV1) (accsA : Accs) (qtn : Qualified)
    (s : String)
    (hFFR : federationFieldsResolve d = true) (hFNE : federationNonEmpty d = true) :
    ∃ afc accsB,
      resolveGraphqlStage d.graphql (resolvedFieldsOf s d.fields) accsA qtn =
        .ok ((gtnOf d, gitnOf d, afc), accsB) ∧
      accsB.graphql_types = accsA.graphql_types := by
  rcases hg : d.graphql with _ | g
  · refine ⟨none, accsA, ?_, rfl⟩
    simp only [resolveGraphqlStage, gtnOf, gitnOf, hg]
  · rcases haf : g.apollo_federation with _ | af
    · refine ⟨none, accsA, ?_, rfl⟩
      simp only [resolveGraphqlStage, gtnOf, gitnOf, hg, optTranspose_mk, haf]
    · have hFNE' : af.keys.isEmpty = false ∧ ∀ key ∈ af.keys, key.fields.isEmpty = false := by
        have h := hFNE
        unfold federationNonEmpty at h
        simp only [hg, haf, Bool.and_eq_true, Bool.not_eq_true', List.all_eq_true] at h
        exact h
      have hgood : ∀ key ∈ af.keys, key.fields ≠ [] ∧
          ∀ f ∈ key.fields, containsKey (resolvedFieldsOf s d.fields) f = true := by
        intro key hk
        constructor
        · have := hFNE'.2 key hk
          simpa [List.isEmpty_eq_false] using this
        · intro f hf
          have h := hFFR
          unfold federationFieldsResolve at h
          simp only [hg, haf, List.all_eq_true] at h
          have := h key hk f hf
          rw [containsKey_resolvedFieldsOf]
          simpa [fieldNames] using this
      obtain ⟨out, hout, hlen⟩ :=
        resolveFederationKeysLoop_ok qtn (resolvedFieldsOf s d.fields) af.keys [] hgood
      cases out with
      | nil =>
        exfalso
        have hkne : af.keys ≠ [] := by
          simpa [List.isEmpty_eq_false] using hFNE'.1
        simp only [List.length_nil, List.length, Nat.zero_add] at hlen
        exact hkne (List.length_eq_zero.1 hlen.symm)
      | cons rk rks =>
        refine ⟨some ⟨rk :: rks⟩,
          { accsA with apollo_federation_entity_enabled_types :=
              (insertLookup accsA.apollo_federation_entity_enabled_types qtn none).2 },
          ?_, rfl⟩
        simp only [resolveGraphqlStage, gtnOf, gitnOf, hg, optTranspose_mk, haf, hout]

/-- resolve_object_type succeeds under the duplicate-freeness and resolution
hypotheses, producing the declared field map and claiming exactly the
declared GraphQL names, in order, on top of the caller's set. -/
theorem resolve_object_type_ok (d : ObjectTypeV1) (accs : Accs) (qtn : Qualified)
    (s : String)
    (h1 : (fieldNames d).Nodup)
    (hIFR : identityFieldsResolve d = true) (hNIC : noIdConflict d = true)
    (hFFR : federationFieldsResolve d = true) (hFNE : federationNonEmpty d = true)
    (hfresh : ∀ n ∈ declGraphqlNames d, n ∉ accs.graphql_types)
    (hdnd : (declGraphqlNames d).Nodup) :
    ∃ repr accs', resolve_object_type d accs qtn s = .ok (repr, accs') ∧
      repr.fields = resolvedFieldsOf s d.fields ∧
      accs'.graphql_types = accs.graphql_types ++ declGraphqlNames d := by
  have hfok : resolveFieldsLoop s qtn d.fields [] = .ok (resolvedFieldsOf s d.fields) :=
    resolveFieldsLoop_ok s qtn d.fields [] h1 (fun f _ => by simp [keysOf])
  obtain ⟨rgif, accsA, hid, _, hgA⟩ := resolveGlobalIdStage_ok d accs qtn s hIFR hNIC
  obtain ⟨afc, accsB, hgql, hgB⟩ := resolveGraphqlStage_ok d accsA qtn s hFFR hFNE
  have hdecl : declGraphqlNames d = (gtnOf d).toList ++ (gitnOf d).toList := by
    unfold declGraphqlNames gtnOf gitnOf
    cases d.graphql <;> rfl
  have hBg : accsB.graphql_types = accs.graphql_types := by rw [hgB, hgA]
  have hs1 : store_new_graphql_type accsB.graphql_types (gtnOf d) =
      .ok (accsB.graphql_types ++ (gtnOf d).toList) := by
    cases hgt : gtnOf d with
    | none => simp [store_new_graphql_type]
    | some n =>
      have hn : n ∉ accs.graphql_types := by
        apply hfresh
        rw [hdecl, hgt]
        simp
      rw [hBg]
      simp [store_new_graphql_type, hn]
  have hs2 : store_new_graphql_type (accsB.graphql_types ++ (gtnOf d).toList) (gitnOf d) =
      .ok (accsB.graphql_types ++ (gtnOf d).toList ++ (gitnOf d).toList) := by
    cases hgt : gitnOf d with
    | none => simp [store_new_graphql_type]
    | some n =>
      have hn : n ∉ accs.graphql_types := by
        apply hfresh
        rw [hdecl, hgt]
        simp
      have hne2 : n ∉ (gtnOf d).toList := by
        cases hgt2 : gtnOf d with
        | none => simp
        | some m =>
          simp only [Option.toList_some, List.mem_singleton]
          intro he
          subst he
          have hd := hdnd
          rw [hdecl, hgt2, hgt] at hd
          simp at hd
      have hnot : n ∉ accsB.graphql_types ++ (gtnOf d).toList := by
        rw [hBg]
        intro hm
        rcases List.mem_append.1 hm with h | h
        · exact hn h
        · exact hne2 h
      simp [store_new_graphql_type, hnot]
  refine ⟨{ fields := resolvedFieldsOf s d.fields
            global_id_fields := rgif
            graphql_output_type_name := gtnOf d
            graphql_input_type_name := gitnOf d
            description := d.description
            apollo_federation_config := afc },
          { accsB with graphql_types :=
              accsB.graphql_types ++ (gtnOf d).toList ++ (gitnOf d).toList },
          ?_, rfl, ?_⟩
  · simp only [resolve_object_type, hfok, hid, hgql, hs1, hs2]
  · show accsB.graphql_types ++ (gtnOf d).toList ++ (gitnOf d).toList =
      accs.graphql_types ++ declGraphqlNames d
    rw [hBg, hdecl, List.append_assoc]

/-! ### Lemmas about the top-level driver -/

theorem mappingResolves_elim (dcs : DataConnectors) (s : String) (FN : List String)
    (dtm : DataConnectorTypeMapping) (h : mappingResolves dcs s FN dtm = true) :
    ∃ ctx ndc, lookupKey dcs.connectors ⟨s, dtm.data_connector_name⟩ = some ctx ∧
      lookupKey ctx.schema.object_types dtm.data_connector_object_type = some ndc ∧
      (∀ f ∈ FN, containsKey ndc.fields (chosenColumn dtm f) = true) ∧
      (∀ k ∈ keysOf dtm.field_mapping, k ∈ FN) := by
  unfold mappingResolves at h
  cases hctx : lookupKey dcs.connectors ⟨s, dtm.data_connector_name⟩ with
  | none =>
    simp only [hctx] at h
    exact absurd h (by decide)
  | some ctx =>
    simp only [hctx] at h
    cases hndc : lookupKey ctx.schema.object_types dtm.data_connector_object_type with
    | none =>
      simp only [hndc] at h
      exact absurd h (by decide)
    | some ndc =>
      simp only [hndc, Bool.and_eq_true, List.all_eq_true] at h
      refine ⟨ctx, ndc, rfl, hndc, h.1, ?_⟩
      intro k hk
      obtain ⟨kv, hkv, hke⟩ := List.mem_map.1 hk
      have := h.2 kv hkv
      rw [← hke]
      simpa using this

/-- The per-directive loop succeeds when every directive resolves and the
declared table keys are fresh and duplicate-free, producing one table entry
per directive with a full field-mapping key set. -/
theorem resolveMappingsLoop_ok (dcs : DataConnectors) (s : String) (qtn : Qualified)
    (repr : ObjectTypeRepresentation) (hN : (keysOf repr.fields).Nodup) :
    ∀ (dtms : List DataConnectorTypeMapping) (tms : DataConnectorTypeMappingsForObject),
    (keysOf tms ++ dtms.map (fun dtm =>
      ((⟨s, dtm.data_connector_name⟩ : Qualified), dtm.data_connector_object_type))).Nodup →
    (∀ dtm ∈ dtms, mappingResolves dcs s (keysOf repr.fields) dtm = true) →
    ∃ tms', resolveMappingsLoop dcs s qtn repr dtms tms = .ok tms' ∧
      keysOf tms' = keysOf tms ++ dtms.map (fun dtm =>
        ((⟨s, dtm.data_connector_name⟩ : Qualified), dtm.data_connector_object_type)) ∧
      (∀ k, (∀ dtm ∈ dtms,
          k ≠ ((⟨s, dtm.data_connector_name⟩ : Qualified), dtm.data_connector_object_type)) →
        lookupKey tms' k = lookupKey tms k) ∧
      ∀ dtm ∈ dtms, ∃ fm,
        lookupKey tms' (⟨s, dtm.data_connector_name⟩, dtm.data_connector_object_type) =
          some (.Object dtm.data_connector_object_type fm) ∧
        keysOf fm = keysOf repr.fields := by
  intro dtms
  induction dtms with
  | nil =>
    intro tms _ _
    exact ⟨tms, rfl, by simp, fun k _ => rfl, by simp⟩
  | cons dtm rest ih =>
    intro tms hkeys hres
    obtain ⟨ctx, ndc, hctx, hndc, hcols, hcons⟩ :=
      mappingResolves_elim dcs s (keysOf repr.fields) dtm
        (hres dtm (List.mem_cons_self dtm rest))
    obtain ⟨fm, hok, hfmkeys, _⟩ :=
      resolve_dctm_ok dtm qtn s repr dcs ctx ndc hN hctx hndc hcols hcons
    have hkeys' : ((keysOf tms ++ [((⟨s, dtm.data_connector_name⟩ : Qualified),
        dtm.data_connector_object_type)]) ++ rest.map (fun dtm =>
        ((⟨s, dtm.data_connector_name⟩ : Qualified), dtm.data_connector_object_type))).Nodup := by
      rw [List.append_assoc]
      exact hkeys
    have hknotin : ((⟨s, dtm.data_connector_name⟩ : Qualified),
        dtm.data_connector_object_type) ∉ keysOf tms := by
      have h := hkeys
      rw [List.nodup_append] at h
      intro hm
      exact h.2.2 hm (by simp)
    have hlk : lookupKey tms ((⟨s, dtm.data_connector_name⟩ : Qualified),
        dtm.data_connector_object_type) = none :=
      (lookupKey_eq_none_iff tms _).2 hknotin
    have hins : dctmInsert tms ⟨s, dtm.data_connector_name⟩ dtm.data_connector_object_type
        (.Object dtm.data_connector_object_type fm) =
        .ok (tms ++ [((⟨s, dtm.data_connector_name⟩, dtm.data_connector_object_type),
          .Object dtm.data_connector_object_type fm)]) := by
      unfold dctmInsert
      rw [hlk]
    have hres' : ∀ dtm' ∈ rest, mappingResolves dcs s (keysOf repr.fields) dtm' = true :=
      fun dtm' h' => hres dtm' (List.mem_cons_of_mem dtm h')
    obtain ⟨tms', hloop, htkeys, hpres, hcover⟩ :=
      ih (tms ++ [((⟨s, dtm.data_connector_name⟩, dtm.data_connector_object_type),
        .Object dtm.data_connector_object_type fm)])
        (by rw [keysOf_append]; exact hkeys') hres'
    have hknotrest : ((⟨s, dtm.data_connector_name⟩ : Qualified),
        dtm.data_connector_object_type) ∉ rest.map (fun dtm =>
        ((⟨s, dtm.data_connector_name⟩ : Qualified), dtm.data_connector_object_type)) := by
      have h := hkeys'
      rw [List.nodup_append] at h
      intro hm
      exact h.2.2 (by simp) hm
    refine ⟨tms', ?_, ?_, ?_, ?_⟩
    · simp only [resolveMappingsLoop, hok, hins]
      exact hloop
    · rw [htkeys, keysOf_append, List.append_assoc]
      simp [keysOf]
    · intro k hk
      have hkey : k ≠ ((⟨s, dtm.data_connector_name⟩ : Qualified),
          dtm.data_connector_object_type) := hk dtm (List.mem_cons_self dtm rest)
      rw [hpres k (fun dtm' h' => hk dtm' (List.mem_cons_of_mem dtm h')),
        lookupKey_append_singleton_ne tms _ _ k hkey]
    · intro dtm' hdtm'
      rcases List.mem_cons.1 hdtm' with rfl | hdtm2
      · refine ⟨fm, ?_, hfmkeys⟩
        have hne : ∀ d2 ∈ rest, ((⟨s, dtm'.data_connector_name⟩ : Qualified),
            dtm'.data_connector_object_type) ≠
            ((⟨s, d2.data_connector_name⟩ : Qualified), d2.data_connector_object_type) := by
          intro d2 h2 he
          apply hknotrest
          rw [he]
          exact List.mem_map_of_mem _ h2
        rw [hpres _ hne, lookupKey_append_right _ _ _ hlk]
        simp [lookupKey]
      · exact hcover dtm' hdtm2

/-- One driver iteration succeeds under the per-declaration hypotheses,
appending exactly one aggregate entry and claiming exactly the declared
GraphQL names. -/
theorem resolveStep_ok (dcs : DataConnectors) (st : ResolveState) (qo : QualifiedObject)
    (h1 : (fieldNames qo.object).Nodup)
    (hIFR : identityFieldsResolve qo.object = true)
    (hNIC : noIdConflict qo.object = true)
    (hFFR : federationFieldsResolve qo.object = true)
    (hFNE : federationNonEmpty qo.object = true)
    (hdk : (dtmKeys qo.subgraph qo.object).Nodup)
    (hres : ∀ dtm ∈ qo.object.data_connector_type_mapping,
      mappingResolves dcs qo.subgraph (fieldNames qo.object) dtm = true)
    (hq : qtnOf qo ∉ keysOf st.object_types)
    (hfresh : ∀ n ∈ declGraphqlNames qo.object, n ∉ st.accs.graphql_types)
    (hdnd : (declGraphqlNames qo.object).Nodup) :
    ∃ otwm accs',
      resolveStep dcs st qo = .ok ⟨st.object_types ++ [(qtnOf qo, otwm)], accs'⟩ ∧
      accs'.graphql_types = st.accs.graphql_types ++ declGraphqlNames qo.object ∧
      keysOf otwm.object_type.fields = fieldNames qo.object ∧
      keysOf otwm.type_mappings = dtmKeys qo.subgraph qo.object ∧
      ∀ dtm ∈ qo.object.data_connector_type_mapping, ∃ fm,
        lookupKey otwm.type_mappings
          (⟨qo.subgraph, dtm.data_connector_name⟩, dtm.data_connector_object_type) =
          some (.Object dtm.data_connector_object_type fm) ∧
        keysOf fm = fieldNames qo.object := by
  obtain ⟨repr, accs', hrot, hfields, hgr⟩ :=
    resolve_object_type_ok qo.object st.accs ⟨qo.subgraph, qo.object.name⟩ qo.subgraph
      h1 hIFR hNIC hFFR hFNE hfresh hdnd
  have hFN : keysOf repr.fields = fieldNames qo.object := by
    rw [hfields, keysOf_resolvedFieldsOf]
    rfl
  have hNk : (keysOf repr.fields).Nodup := by rw [hFN]; exact h1
  have hres' : ∀ dtm ∈ qo.object.data_connector_type_mapping,
      mappingResolves dcs qo.subgraph (keysOf repr.fields) dtm = true := by
    intro dtm hdtm
    rw [hFN]
    exact hres dtm hdtm
  have hdk' : ((keysOf ([] : DataConnectorTypeMappingsForObject)) ++
      qo.object.data_connector_type_mapping.map (fun dtm =>
        ((⟨qo.subgraph, dtm.data_connector_name⟩ : Qualified),
          dtm.data_connector_object_type))).Nodup := by
    simpa [keysOf] using hdk
  obtain ⟨tms, hml, htkeys, _, hcover⟩ :=
    resolveMappingsLoop_ok dcs qo.subgraph ⟨qo.subgraph, qo.object.name⟩ repr hNk
      qo.object.data_connector_type_mapping [] hdk' hres'
  have hlk : lookupKey st.object_types (⟨qo.subgraph, qo.object.name⟩ : Qualified) = none :=
    (lookupKey_eq_none_iff _ _).2 hq
  rcases hP : insertLookup st.object_types ⟨qo.subgraph, qo.object.name⟩
      (⟨repr, tms⟩ : ObjectTypeWithTypeMappings) with ⟨o, l⟩
  have ho : o = none := by
    have h := insertLookup_fst st.object_types ⟨qo.subgraph, qo.object.name⟩
      (⟨repr, tms⟩ : ObjectTypeWithTypeMappings)
    rw [hP, hlk] at h
    exact h
  have hl : l = st.object_types ++ [(⟨qo.subgraph, qo.object.name⟩, ⟨repr, tms⟩)] := by
    have h := insertLookup_snd_of_none st.object_types ⟨qo.subgraph, qo.object.name⟩
      (⟨repr, tms⟩ : ObjectTypeWithTypeMappings) hlk
    rw [hP] at h
    exact h
  subst ho
  subst hl
  refine ⟨⟨repr, tms⟩, accs', ?_, hgr, hFN, ?_, ?_⟩
  · simp only [resolveStep, hrot, hml, hP]
  · show keysOf tms = dtmKeys qo.subgraph qo.object
    rw [htkeys]
    simp [keysOf, dtmKeys]
  · intro dtm hdtm
    obtain ⟨fm, hfm, hfmk⟩ := hcover dtm hdtm
    exact ⟨fm, hfm, by rw [hfmk, hFN]⟩

/-- Inversion: a successful driver iteration appends exactly one entry,
keyed by a fresh qualified name. -/
theorem resolveStep_ok_inv (dcs : DataConnectors) (st : ResolveState) (qo : QualifiedObject)
    (st' : ResolveState) (h : resolveStep dcs st qo = .ok st') :
    ∃ otwm, qtnOf qo ∉ keysOf st.object_types ∧
      st'.object_types = st.object_types ++ [(qtnOf qo, otwm)] := by
  rcases hrot : resolve_object_type qo.object st.accs ⟨qo.subgraph, qo.object.name⟩
      qo.subgraph with ⟨e, a⟩ | ⟨repr, accs'⟩
  · simp only [resolveStep, hrot] at h
    exact absurd h (by simp)
  · simp only [resolveStep, hrot] at h
    rcases hml : resolveMappingsLoop dcs qo.subgraph ⟨qo.subgraph, qo.object.name⟩ repr
        qo.object.data_connector_type_mapping [] with e | tms
    · simp only [hml] at h
      exact absurd h (by simp)
    · simp only [hml] at h
      rcases hP : insertLookup st.object_types ⟨qo.subgraph, qo.object.name⟩
          (⟨repr, tms⟩ : ObjectTypeWithTypeMappings) with ⟨o, l⟩
      simp only [hP] at h
      cases o with
      | some v => simp at h
      | none =>
        have hofst : lookupKey st.object_types
            (⟨qo.subgraph, qo.object.name⟩ : Qualified) = none := by
          have h2 := insertLookup_fst st.object_types ⟨qo.subgraph, qo.object.name⟩
            (⟨repr, tms⟩ : ObjectTypeWithTypeMappings)
          rw [hP] at h2
          exact h2.symm
        have hl : l = st.object_types ++
            [(⟨qo.subgraph, qo.object.name⟩, ⟨repr, tms⟩)] := by
          have h2 := insertLookup_snd_of_none st.object_types ⟨qo.subgraph, qo.object.name⟩
            (⟨repr, tms⟩ : ObjectTypeWithTypeMappings) hofst
          rw [hP] at h2
          exact h2
        refine ⟨⟨repr, tms⟩, (lookupKey_eq_none_iff _ _).1 hofst, ?_⟩
        simp only [Except.ok.injEq] at h
        rw [← h, ← hl]

/-- A successful run of the driver loop only appends aggregate entries. -/
theorem resolveGo_extends (dcs : DataConnectors) :
    ∀ (ds : List QualifiedObject) (st st' : ResolveState),
    resolveGo dcs st ds = .ok st' →
    ∃ ext, st'.object_types = st.object_types ++ ext := by
  intro ds
  induction ds with
  | nil =>
    intro st st' h
    simp only [resolveGo, Except.ok.injEq] at h
    exact ⟨[], by rw [← h]; simp⟩
  | cons qo rest ih =>
    intro st st' h
    rcases hstep : resolveStep dcs st qo with e | st₁
    · simp only [resolveGo, hstep] at h
      exact absurd h (by simp)
    · simp only [resolveGo, hstep] at h
      obtain ⟨otwm, _, hobjs⟩ := resolveStep_ok_inv dcs st qo st₁ hstep
      obtain ⟨ext, hext⟩ := ih st₁ st' h
      exact ⟨[(qtnOf qo, otwm)] ++ ext, by rw [hext, hobjs, List.append_assoc]⟩

/-- Splitting a driver run at a successful prefix. -/
theorem resolveGo_append (dcs : DataConnectors) :
    ∀ (ds1 ds2 : List QualifiedObject) (st st₁ : ResolveState),
    resolveGo dcs st ds1 = .ok st₁ →
    resolveGo dcs st (ds1 ++ ds2) = resolveGo dcs st₁ ds2 := by
  intro ds1
  induction ds1 with
  | nil =>
    intro ds2 st st₁ h
    simp only [resolveGo, Except.ok.injEq] at h
    rw [List.nil_append, h]
  | cons qo rest ih =>
    intro ds2 st st₁ h
    rcases hstep : resolveStep dcs st qo with e | st₂
    · simp only [resolveGo, hstep] at h
      exact absurd h (by simp)
    · simp only [resolveGo, hstep] at h
      rw [List.cons_append]
      simp only [resolveGo, hstep]
      exact ih ds2 st₂ st₁ h

/-- A successful run implies the declared qualified names are distinct and
fresh for the starting aggregate. -/
theorem resolveGo_ok_nodup (dcs : DataConnectors) :
    ∀ (ds : List QualifiedObject) (st st' : ResolveState),
    resolveGo dcs st ds = .ok st' →
    (ds.map qtnOf).Nodup ∧ ∀ q ∈ ds.map qtnOf, q ∉ keysOf st.object_types := by
  intro ds
  induction ds with
  | nil => intro st st' _; exact ⟨List.nodup_nil, by simp⟩
  | cons qo rest ih =>
    intro st st' h
    rcases hstep : resolveStep dcs st qo with e | st₁
    · simp only [resolveGo, hstep] at h
      exact absurd h (by simp)
    · simp only [resolveGo, hstep] at h
      obtain ⟨otwm, hq, hobjs⟩ := resolveStep_ok_inv dcs st qo st₁ hstep
      obtain ⟨hnd, hfresh⟩ := ih st₁ st' h
      have hkeys₁ : keysOf st₁.object_types = keysOf st.object_types ++ [qtnOf qo] := by
        rw [hobjs, keysOf_append]
        rfl
      constructor
      · rw [List.map_cons, List.nodup_cons]
        refine ⟨?_, hnd⟩
        intro hm
        have := hfresh (qtnOf qo) hm
        rw [hkeys₁] at this
        exact this (by simp)
      · intro q hq2
        rw [List.map_cons, List.mem_cons] at hq2
        rcases hq2 with he | hm
        · rw [he]; exact hq
        · have := hfresh q hm
          rw [hkeys₁] at this
          intro hmem
          exact this (List.mem_append_left _ hmem)

/-- The driver loop succeeds under the aggregate hypotheses, producing an
entry for every declaration with one table entry per declared source mapping
and a full field-mapping key set in each. -/
theorem resolveGo_ok (dcs : DataConnectors) :
    ∀ (ds : List QualifiedObject) (st : ResolveState),
    (∀ qo ∈ ds, (fieldNames qo.object).Nodup ∧
      identityFieldsResolve qo.object = true ∧ noIdConflict qo.object = true ∧
      federationFieldsResolve qo.object = true ∧ federationNonEmpty qo.object = true ∧
      (dtmKeys qo.subgraph qo.object).Nodup ∧
      ∀ dtm ∈ qo.object.data_connector_type_mapping,
        mappingResolves dcs qo.subgraph (fieldNames qo.object) dtm = true) →
    (keysOf st.object_types ++ ds.map qtnOf).Nodup →
    (st.accs.graphql_types ++
      (ds.map (fun qo => declGraphqlNames qo.object)).flatten).Nodup →
    ∃ st', resolveGo dcs st ds = .ok st' ∧
      ∀ qo ∈ ds, ∃ otwm, lookupKey st'.object_types (qtnOf qo) = some otwm ∧
        keysOf otwm.object_type.fields = fieldNames qo.object ∧
        keysOf otwm.type_mappings = dtmKeys qo.subgraph qo.object ∧
        ∀ dtm ∈ qo.object.data_connector_type_mapping, ∃ fm,
          lookupKey otwm.type_mappings
            (⟨qo.subgraph, dtm.data_connector_name⟩, dtm.data_connector_object_type) =
            some (.Object dtm.data_connector_object_type fm) ∧
          keysOf fm = fieldNames qo.object := by
  intro ds
  induction ds with
  | nil =>
    intro st _ _ _
    exact ⟨st, rfl, by simp⟩
  | cons qo rest ih =>
    intro st hwf hq hg
    obtain ⟨h1, hIFR, hNIC, hFFR, hFNE, hdk, hres⟩ := hwf qo (List.mem_cons_self qo rest)
    have hqfresh : qtnOf qo ∉ keysOf st.object_types := by
      intro hm
      have h := hq
      rw [List.map_cons, List.nodup_append] at h
      exact h.2.2 hm (List.mem_cons_self _ _)
    have hgflat : (st.accs.graphql_types ++ (declGraphqlNames qo.object ++
        (rest.map (fun qo => declGraphqlNames qo.object)).flatten)).Nodup := by
      have h := hg
      rw [List.map_cons, List.flatten_cons] at h
      exact h
    have hgfresh : ∀ n ∈ declGraphqlNames qo.object, n ∉ st.accs.graphql_types := by
      intro n hn hm
      have h := hgflat
      rw [List.nodup_append] at h
      exact h.2.2 hm (List.mem_append_left _ hn)
    have hdnd : (declGraphqlNames qo.object).Nodup := by
      have h := hgflat
      rw [List.nodup_append] at h
      have h2 := h.2.1
      rw [List.nodup_append] at h2
      exact h2.1
    obtain ⟨otwm, accs', hstep, hgr, hfk, htk, hcov⟩ :=
      resolveStep_ok dcs st qo h1 hIFR hNIC hFFR hFNE hdk hres hqfresh hgfresh hdnd
    have hq₁ : (keysOf ((⟨st.object_types ++ [(qtnOf qo, otwm)], accs'⟩ :
        ResolveState)).object_types ++ rest.map qtnOf).Nodup := by
      show ((keysOf (st.object_types ++ [(qtnOf qo, otwm)])) ++ rest.map qtnOf).Nodup
      rw [keysOf_append, List.append_assoc]
      have h := hq
      rw [List.map_cons] at h
      simpa [keysOf] using h
    have hg₁ : ((⟨st.object_types ++ [(qtnOf qo, otwm)], accs'⟩ :
        ResolveState).accs.graphql_types ++
        (rest.map (fun qo => declGraphqlNames qo.object)).flatten).Nodup := by
      show (accs'.graphql_types ++
        (rest.map (fun qo => declGraphqlNames qo.object)).flatten).Nodup
      rw [hgr, List.append_assoc]
      exact hgflat
    obtain ⟨st', hgo, hcover⟩ :=
      ih ⟨st.object_types ++ [(qtnOf qo, otwm)], accs'⟩
        (fun qo' h' => hwf qo' (List.mem_cons_of_mem qo h')) hq₁ hg₁
    refine ⟨st', ?_, ?_⟩
    · simp only [resolveGo, hstep]
      exact hgo
    · intro qo' hqo'
      rcases List.mem_cons.1 hqo' with rfl | hmem
      · obtain ⟨ext, hext⟩ :=
          resolveGo_extends dcs rest ⟨st.object_types ++ [(qtnOf qo', otwm)], accs'⟩ st' hgo
        refine ⟨otwm, ?_, hfk, htk, hcov⟩
        rw [hext]
        have hlk₁ : lookupKey (st.object_types ++ [(qtnOf qo', otwm)]) (qtnOf qo') =
            some otwm := by
          rw [lookupKey_append_right _ _ _ ((lookupKey_eq_none_iff _ _).2 hqfresh)]
          simp [lookupKey]
        show lookupKey ((st.object_types ++ [(qtnOf qo', otwm)]) ++ ext) (qtnOf qo') =
          some otwm
        rw [lookupKey_append_left _ _ _ (by simp [hlk₁])]
        exact hlk₁
      · exact hcover qo' hmem

/-- Every driver run either succeeds covering every declaration, or returns
the error of the first failing declaration with the whole run failing. -/
theorem resolveGo_cases (dcs : DataConnectors) :
    ∀ (ds : List QualifiedObject) (st : ResolveState),
    (∃ st', resolveGo dcs st ds = .ok st' ∧
      ∀ qo ∈ ds, containsKey st'.object_types (qtnOf qo) = true) ∨
    (∃ ds1 qo ds2 st₁ e, ds = ds1 ++ qo :: ds2 ∧
      resolveGo dcs st ds1 = .ok st₁ ∧ resolveStep dcs st₁ qo = .error e ∧
      resolveGo dcs st ds = .error e) := by
  intro ds
  induction ds with
  | nil => exact fun st => Or.inl ⟨st, rfl, by simp⟩
  | cons qo rest ih =>
    intro st
    rcases hstep : resolveStep dcs st qo with e | st₁
    · right
      exact ⟨[], qo, rest, st, e, rfl, rfl, hstep, by simp only [resolveGo, hstep]⟩
    · rcases ih st₁ with ⟨st', hgo, hcov⟩ |
        ⟨ds1, qo', ds2, st₂, e, hsp, hgo1, hstep2, hgoerr⟩
      · left
        refine ⟨st', by simp only [resolveGo, hstep]; exact hgo, ?_⟩
        intro qo' hqo'
        rcases List.mem_cons.1 hqo' with rfl | hmem
        · obtain ⟨otwm, _, hobjs⟩ := resolveStep_ok_inv dcs st qo' st₁ hstep
          obtain ⟨ext, hext⟩ := resolveGo_extends dcs rest st₁ st' hgo
          rw [containsKey_iff, hext, hobjs, keysOf_append, keysOf_append]
          simp [keysOf]
        · exact hcov qo' hmem
      · right
        refine ⟨qo :: ds1, qo', ds2, st₂, e, by rw [hsp, List.cons_append], ?_, hstep2, ?_⟩
        · show resolveGo dcs st (qo :: ds1) = .ok st₂
          simp only [resolveGo, hstep]
          exact hgo1
        · show resolveGo dcs st (qo :: rest) = .error e
          simp only [resolveGo, hstep]
          exact hgoerr

/-! ### Claims about the top-level resolve -/

/-- C4: the top-level resolve is atomic to its caller: it either returns a
complete aggregate output with an entry for every declared object type, or
returns the error of the first failing declaration in declaration order — no
partial aggregate output exists on the error path. -/
theorem claim_C4 (m : MetadataAccessor) (dcs : DataConnectors) :
    (∃ out, resolve m dcs = .ok out ∧
      ∀ qo ∈ m.object_types, containsKey out.object_types (qtnOf qo) = true) ∨
    (∃ ds1 qo ds2 st e, m.object_types = ds1 ++ qo :: ds2 ∧
      resolveGo dcs initState ds1 = .ok st ∧
      resolveStep dcs st qo = .error e ∧
      resolve m dcs = .error e) := by
  rcases resolveGo_cases dcs m.object_types initState with
    ⟨st', hgo, hcov⟩ | ⟨ds1, qo, ds2, st₁, e, hsp, hgo1, hstep, hgoerr⟩
  · left
    refine ⟨⟨st'.object_types, st'.accs.graphql_types, st'.accs.global_id_enabled_types,
      st'.accs.apollo_federation_entity_enabled_types⟩, ?_, hcov⟩
    simp only [resolve, hgo]
  · right
    exact ⟨ds1, qo, ds2, st₁, e, hsp, hgo1, hstep, by simp only [resolve, hgoerr]⟩

/-- C9 (amended): an input declaring the same qualified type name twice never
resolves successfully; and when every declaration up to and including the
second occurrence itself resolves (the prefix succeeds and the repeated
declaration's own type and mappings resolve), the returned error is
duplicate-type-definition carrying that qualified name, detected at the
second occurrence. -/
theorem claim_C9 :
    (∀ (m : MetadataAccessor) (dcs : DataConnectors) (out : DataConnectorTypeMappingsOutput),
      ¬ (qualifiedNames m).Nodup → resolve m dcs ≠ .ok out) ∧
    (∀ (dcs : DataConnectors) (ds1 : List QualifiedObject) (qo : QualifiedObject)
      (ds2 : List QualifiedObject) (st : ResolveState),
      resolveGo dcs initState ds1 = .ok st →
      qtnOf qo ∈ keysOf st.object_types →
      (∃ repr accs', resolve_object_type qo.object st.accs (qtnOf qo) qo.subgraph =
          .ok (repr, accs') ∧
        ∃ tms, resolveMappingsLoop dcs qo.subgraph (qtnOf qo) repr
          qo.object.data_connector_type_mapping [] = .ok tms) →
      resolve ⟨ds1 ++ qo :: ds2⟩ dcs = .error (.DuplicateTypeDefinition (qtnOf qo))) := by
  constructor
  · intro m dcs out hdup hok
    apply hdup
    rcases hgo : resolveGo dcs initState m.object_types with e | st'
    · simp only [resolve, hgo] at hok
      exact absurd hok (by simp)
    · have := (resolveGo_ok_nodup dcs m.object_types initState st' hgo).1
      exact this
  · intro dcs ds1 qo ds2 st hpre hmem hok
    obtain ⟨repr, accs', hrot, tms, hml⟩ := hok
    obtain ⟨v, hv⟩ : ∃ v, lookupKey st.object_types (qtnOf qo) = some v := by
      have := (lookupKey_isSome_iff st.object_types (qtnOf qo)).2 hmem
      exact Option.isSome_iff_exists.1 this
    rcases hP : insertLookup st.object_types ⟨qo.subgraph, qo.object.name⟩
        (⟨repr, tms⟩ : ObjectTypeWithTypeMappings) with ⟨o, l⟩
    have ho : o = some v := by
      have h := insertLookup_fst st.object_types ⟨qo.subgraph, qo.object.name⟩
        (⟨repr, tms⟩ : ObjectTypeWithTypeMappings)
      rw [hP, hv] at h
      exact h
    subst ho
    have hstep : resolveStep dcs st qo = .error (.DuplicateTypeDefinition (qtnOf qo)) := by
      simp only [resolveStep, hrot, hml, hP]
    have hgo : resolveGo dcs initState (ds1 ++ qo :: ds2) =
        .error (.DuplicateTypeDefinition (qtnOf qo)) := by
      rw [resolveGo_append dcs ds1 (qo :: ds2) initState st hpre]
      simp only [resolveGo, hstep]
    simp only [resolve, hgo]

/-- Counterexample to C9 as stated: two declarations sharing the qualified
name app.User whose shared body declares the field a twice; resolution fails
with duplicate-field-definition at the first declaration, not with
duplicate-type-definition. -/
theorem claim_C9_counterexample :
    ¬ (qualifiedNames exDupTypeBadFields).Nodup ∧
    resolve exDupTypeBadFields exDcs =
      .error (.DuplicateFieldDefinition ⟨"app", "User"⟩ "a") ∧
    (Except.error (.DuplicateFieldDefinition ⟨"app", "User"⟩ "a") :
        Except Error DataConnectorTypeMappingsOutput) ≠
      .error (.DuplicateTypeDefinition ⟨"app", "User"⟩) :=
  ⟨by decide, by rfl, by simp⟩

/-- Witness for C9 (amended): declaring the simple User type twice fails with
duplicate-type-definition at the second occurrence. -/
theorem claim_C9_witness :
    resolve ⟨[exSimpleDecl] ++ exSimpleDecl :: []⟩ exDcs =
      .error (.DuplicateTypeDefinition ⟨"app", "User"⟩) :=
  claim_C9.2 exDcs [exSimpleDecl] exSimpleDecl [] exSimpleState (by rfl) (by decide)
    ⟨⟨[("id", ⟨⟨"app", "Int"⟩, none, none⟩)], [], none, none, none, none⟩, ⟨[], [], []⟩,
      by rfl, [], by rfl⟩

/-- Counterexample to C1 as stated: a type with fields id and x and identity
group [x] has no duplicate names and every field, identity field, source,
native type and column resolves, yet the top-level resolve fails (with
id-conflicts-with-identity) instead of succeeding. -/
theorem claim_C1_counterexample :
    noDuplicateNames exIdConflictInput ∧ allResolve exIdConflictInput exDcs = true ∧
    resolve exIdConflictInput exDcs = .error (.IdFieldConflictingGlobalId ⟨"app", "User"⟩) :=
  ⟨by decide, by decide, by rfl⟩

/-- C1 (amended): when additionally no type with a non-empty identity group
declares a field named id, every federation configuration has a non-empty
key-group sequence of non-empty key groups, and every column override names
a declared field, the top-level resolve succeeds and, for every declared
object type and each of its declared source mappings, the produced Type
Mapping binds every field exactly once (the field_mappings key set is
duplicate-free and equals the object type's field-name set). -/
theorem claim_C1 (m : MetadataAccessor) (dcs : DataConnectors)
    (h1 : noDuplicateNames m)
    (h2 : allResolve m dcs = true)
    (h3 : allWellFormed m = true) :
    ∃ out, resolve m dcs = .ok out ∧
      ∀ qo ∈ m.object_types, ∃ otwm,
        lookupKey out.object_types (qtnOf qo) = some otwm ∧
        keysOf otwm.object_type.fields = fieldNames qo.object ∧
        ∀ dtm ∈ qo.object.data_connector_type_mapping, ∃ fm,
          lookupKey otwm.type_mappings
            (⟨qo.subgraph, dtm.data_connector_name⟩, dtm.data_connector_object_type) =
            some (.Object dtm.data_connector_object_type fm) ∧
          (keysOf fm).Nodup ∧
          ∀ f, f ∈ keysOf fm ↔ f ∈ fieldNames qo.object := by
  obtain ⟨hqn, hgn, hper⟩ := h1
  have h2' : ∀ qo ∈ m.object_types,
      identityFieldsResolve qo.object = true ∧ federationFieldsResolve qo.object = true ∧
      ∀ dtm ∈ qo.object.data_connector_type_mapping,
        mappingResolves dcs qo.subgraph (fieldNames qo.object) dtm = true := by
    intro qo hqo
    have h := h2
    unfold allResolve at h
    rw [List.all_eq_true] at h
    have h := h qo hqo
    rw [Bool.and_eq_true, Bool.and_eq_true, List.all_eq_true] at h
    exact ⟨h.1.1, h.1.2, h.2⟩
  have h3' : ∀ qo ∈ m.object_types,
      noIdConflict qo.object = true ∧ federationNonEmpty qo.object = true := by
    intro qo hqo
    have h := h3
    unfold allWellFormed at h
    rw [List.all_eq_true] at h
    have h := h qo hqo
    rw [Bool.and_eq_true] at h
    exact h
  obtain ⟨st', hgo, hcover⟩ := resolveGo_ok dcs m.object_types initState
    (fun qo hqo =>
      ⟨(hper qo hqo).1, (h2' qo hqo).1, (h3' qo hqo).1, (h2' qo hqo).2.1,
        (h3' qo hqo).2, (hper qo hqo).2, (h2' qo hqo).2.2⟩)
    (by
      show (([] : List Qualified) ++ m.object_types.map qtnOf).Nodup
      simpa using hqn)
    (by
      show (([] : List String) ++
        (m.object_types.map (fun qo => declGraphqlNames qo.object)).flatten).Nodup
      simpa using hgn)
  refine ⟨⟨st'.object_types, st'.accs.graphql_types, st'.accs.global_id_enabled_types,
    st'.accs.apollo_federation_entity_enabled_types⟩, ?_, ?_⟩
  · simp only [resolve, hgo]
  · intro qo hqo
    obtain ⟨otwm, hlk, hfk, _, hcov⟩ := hcover qo hqo
    refine ⟨otwm, hlk, hfk, ?_⟩
    intro dtm hdtm
    obtain ⟨fm, hfm, hfmk⟩ := hcov dtm hdtm
    refine ⟨fm, hfm, ?_, ?_⟩
    · rw [hfmk]
      exact (hper qo hqo).1
    · intro f
      rw [hfmk]

/-- Witness for C1 (amended): the fully valid example input resolves with a
complete field-mapping table. -/
theorem claim_C1_witness :
    (noDuplicateNames exGoodInput ∧ allResolve exGoodInput exDcs = true ∧
      allWellFormed exGoodInput = true) ∧
    ∃ out, resolve exGoodInput exDcs = .ok out ∧
      ∀ qo ∈ exGoodInput.object_types, ∃ otwm,
        lookupKey out.object_types (qtnOf qo) = some otwm ∧
        keysOf otwm.object_type.fields = fieldNames qo.object ∧
        ∀ dtm ∈ qo.object.data_connector_type_mapping, ∃ fm,
          lookupKey otwm.type_mappings
            (⟨qo.subgraph, dtm.data_connector_name⟩, dtm.data_connector_object_type) =
            some (.Object dtm.data_connector_object_type fm) ∧
          (keysOf fm).Nodup ∧
          ∀ f, f ∈ keysOf fm ↔ f ∈ fieldNames qo.object :=
  ⟨⟨by decide, by decide, by decide⟩,
    claim_C1 exGoodInput exDcs (by decide) (by decide) (by decide)⟩

end ObjectTypes
